import Mathlib

/-!
Shallow embedding of the EasyDB in-memory database engine (src/database.rs).

The engine state (`Database`) is embedded with association lists in place of
`HashMap`/`HashSet` (same lookup/insert/remove semantics; iteration order of the
hash containers is unspecified in the source, the embedding fixes one order).
Machine integers (`i64`, `i32`) are embedded as `Int`; the operations performed
by the engine (comparisons, `+ 1` on versions and row keys) cannot overflow in
any of the statements below at the modelled scales, and the source relies on
the same arithmetic.

Fallible code paths (Rust panics: `unwrap` on a missing map key, slice indexing
out of bounds) are embedded as `Option`: `none` means the source panics.
The recursive cascading drop is embedded twice, with explicit fuel
`measureD db + 1` (adequate by `drop_fuel_adequate`): a completion model
(`handle_drop`) computes the state a cascade produces when every lock
acquisition returns, and a lock-tracking model (`handle_drop_locked`) records
the row-map `MutexGuard`s held across the recursive calls and marks
re-locking a mutex already held by the current thread — a call that never
returns in `std::sync` — as `stuck`.
-/

namespace EasyDB

/-- Modelled from the spec (packet.rs is not under src/): the declared column
type tags `Value::NULL`, `Value::INTEGER`, `Value::FLOAT`, `Value::STRING`,
`Value::FOREIGN` used by schema checks. -/
inductive CType where
  | NULL
  | INTEGER
  | FLOAT
  | STRING
  | FOREIGN
deriving DecidableEq, Repr

/-- Modelled from the spec (packet.rs is not under src/): the tagged value.
`Null` (no payload), `Integer` (64-bit signed), `Float` (64-bit IEEE-754,
payload abstracted as an opaque bit-pattern index since no claim inspects
float payloads), `Text` (UTF-8 string), `Foreign` (64-bit signed row id,
sentinel 0 = no reference). Equality is per the spec: same variant with equal
payloads. -/
inductive Value where
  | Null
  | Integer (i : Int)
  | Float (bits : Int)
  | Text (s : String)
  | Foreign (i : Int)
deriving DecidableEq, Repr

/-- Modelled from the spec (schema.rs is not under src/): column metadata with
declared type `c_type` and, for Foreign columns, the 1-based referenced table
id `c_ref` (field names as used by src/database.rs). -/
structure ColumnMetadata where
  c_type : CType
  c_ref : Int
deriving DecidableEq, Repr

/-- Modelled from the spec (schema.rs is not under src/): table metadata, an
ordered sequence of columns (field name as used by src/database.rs). -/
structure TableMetadata where
  t_cols : List ColumnMetadata
deriving DecidableEq, Repr

/-- Error codes of the wire protocol (packet.rs is not under src/; names are
the contract per the spec). -/
inductive ErrCode where
  | BAD_TABLE
  | BAD_ROW
  | BAD_VALUE
  | BAD_FOREIGN
  | BAD_QUERY
  | NOT_FOUND
  | TXN_ABORT
  | UNIMPLEMENTED
deriving DecidableEq, Repr

/-- Non-error engine responses (packet.rs is not under src/): `Insert(id,
version)`, `Update(version)`, `Get(version, values)`, `Drop`, `Query([id])`. -/
inductive Resp where
  | Insert (id : Int) (version : Int)
  | Update (version : Int)
  | Get (version : Int) (values : List Value)
  | Drop
  | Query (ids : List Int)
deriving DecidableEq, Repr

/-- Query operator codes (src/database.rs lines 18-24). -/
def OP_AL : Int := 1

/-- Query operator code EQ (src/database.rs line 19). -/
def OP_EQ : Int := 2

/-- Query operator code NE (src/database.rs line 20). -/
def OP_NE : Int := 3

/-- Query operator code LT (src/database.rs line 21). -/
def OP_LT : Int := 4

/-- Query operator code GT (src/database.rs line 22). -/
def OP_GT : Int := 5

/-- Query operator code LE (src/database.rs line 23). -/
def OP_LE : Int := 6

/-- Query operator code GE (src/database.rs line 24). -/
def OP_GE : Int := 7

/-- A row record: `version` and the ordered `data` values
(src/database.rs `DatabaseTableRow`). -/
structure DatabaseTableRow where
  version : Int
  data : List Value
deriving DecidableEq, Repr

/-- A table: its immutable schema and its row map (row id to row record),
embedded as an association list (src/database.rs `DatabaseTable`). -/
structure DatabaseTable where
  table_schema : TableMetadata
  rows : List (Int × DatabaseTableRow)
deriving DecidableEq, Repr

/-- The reverse-reference index: referenced row id to the set of
`(table_id, row_id)` pairs currently registered as referencing it
(src/database.rs `foreign_references_map`). Entry sets are embedded as
duplicate-free lists. -/
abbrev FRM := List (Int × List (Int × Int))

/-- The whole engine state (src/database.rs `DatabaseData` inside `Database`):
the tables, the global row-id allocator `next_row_key`, and the
reverse-reference index. -/
structure Database where
  tables : List DatabaseTable
  next_row_key : Int
  foreign_references_map : FRM
deriving DecidableEq, Repr

/-- `Database::new` (src/database.rs lines 65-77): one empty row map per
schema table, allocator starting at 1, empty reverse-reference index. -/
def Database.new (tables_schema : List TableMetadata) : Database :=
  ⟨tables_schema.map (fun ts => ⟨ts, []⟩), 1, []⟩

/-! ### Association-list primitives (the embedding of HashMap / HashSet) -/

/-- `HashMap` lookup on the association-list embedding. -/
def lookupA {α : Type} : List (Int × α) → Int → Option α
  | [], _ => none
  | (k, v) :: rest, key => if k = key then some v else lookupA rest key

/-- `HashMap::remove` on the association-list embedding (drops every binding
of the key). -/
def eraseA {α : Type} : List (Int × α) → Int → List (Int × α)
  | [], _ => []
  | (k, v) :: rest, key => if k = key then eraseA rest key else (k, v) :: eraseA rest key

/-- `HashMap::insert` on the association-list embedding: bind `key` to `v`,
replacing any previous binding. -/
def insertA {α : Type} (l : List (Int × α)) (key : Int) (v : α) : List (Int × α) :=
  (key, v) :: eraseA l key

/-- `HashSet<i64>::insert` on the duplicate-free-list embedding. -/
def insertSetI (s : List Int) (x : Int) : List Int :=
  if x ∈ s then s else x :: s

/-- `HashSet<(i32, i64)>::insert` on the duplicate-free-list embedding. -/
def insertSetP (s : List (Int × Int)) (x : Int × Int) : List (Int × Int) :=
  if x ∈ s then s else x :: s

/-- `HashSet<(i32, i64)>::remove` on the duplicate-free-list embedding. -/
def removeSetP : List (Int × Int) → Int × Int → List (Int × Int)
  | [], _ => []
  | y :: rest, x => if y = x then removeSetP rest x else y :: removeSetP rest x

/-- Replace the row map of the table at 0-based index `idx`, keeping its
schema (the in-place mutation of one table's `rows` in the source). -/
def setTableRows : List DatabaseTable → Nat → List (Int × DatabaseTableRow) → List DatabaseTable
  | [], _, _ => []
  | t :: rest, 0, rows' => ⟨t.table_schema, rows'⟩ :: rest
  | t :: rest, n + 1, rows' => t :: setTableRows rest n rows'

/-! ### Helper functions of src/database.rs -/

/-- `validate_table_id` (src/database.rs lines 448-451). -/
def validate_table_id (db_tables : List DatabaseTable) (table_id : Int) : Bool :=
  decide (1 ≤ table_id ∧ table_id ≤ (db_tables.length : Int))

/-- `validate_column_id` (src/database.rs lines 453-456). -/
def validate_column_id (target_table : DatabaseTable) (col_id : Int) : Bool :=
  decide (1 ≤ col_id ∧ col_id ≤ (target_table.table_schema.t_cols.length : Int))

/-- `get_all_referenced_rows` (src/database.rs lines 512-528): the set of
non-zero foreign targets among `values`. -/
def get_all_referenced_rows : List Value → List Int
  | [] => []
  | Value.Foreign r :: rest =>
      if r = 0 then get_all_referenced_rows rest
      else insertSetI (get_all_referenced_rows rest) r
  | _ :: rest => get_all_referenced_rows rest

/-- `add_to_foreign_reference_map` (src/database.rs lines 534-544): for each
referenced row id, add `(referencing_row_table_id, referencing_row_id)` to its
entry, creating the entry when absent. -/
def add_to_foreign_reference_map :
    FRM → List Int → Int → Int → FRM
  | m, [], _, _ => m
  | m, k :: rest, referencing_row_id, referencing_row_table_id =>
      let entry := match lookupA m k with
        | some e => e
        | none => []
      add_to_foreign_reference_map
        (insertA m k (insertSetP entry (referencing_row_table_id, referencing_row_id)))
        rest referencing_row_id referencing_row_table_id

/-- `remove_from_foreign_reference_map` (src/database.rs lines 550-554): for
each referenced row id, `get_mut(key).unwrap().remove(pair)`. `none` embeds the
panic of the `unwrap` when the key has no entry. -/
def remove_from_foreign_reference_map :
    FRM → List Int → Int → Int → Option FRM
  | m, [], _, _ => some m
  | m, k :: rest, referencing_row_id, referencing_row_table_id =>
      match lookupA m k with
      | none => none
      | some e =>
          remove_from_foreign_reference_map
            (insertA m k (removeSetP e (referencing_row_table_id, referencing_row_id)))
            rest referencing_row_id referencing_row_table_id

/-- `validate_values_against_schema` (src/database.rs lines 458-506):
length check (`BAD_ROW`), per-position type-tag check (`BAD_VALUE`), and for
non-zero foreign values existence of the referenced row in the referenced
table (`BAD_FOREIGN`). `none` embeds the panic of the `unwrap` when `c_ref`
names no table; for `c_ref ≤ 0` the source's `(c_ref - 1) as usize` wraps to
a huge index, so `tables.get(..).unwrap()` panics too (`none`). -/
def validate_values_go (db : Database) :
    List Value → List ColumnMetadata → Option (Except ErrCode Bool)
  | [], _ => some (Except.ok true)
  | _, [] => some (Except.ok true)
  | v :: vs, c :: cs =>
      match v with
      | Value.Null =>
          if c.c_type ≠ CType.NULL then some (Except.error ErrCode.BAD_VALUE)
          else validate_values_go db vs cs
      | Value.Integer _ =>
          if c.c_type ≠ CType.INTEGER then some (Except.error ErrCode.BAD_VALUE)
          else validate_values_go db vs cs
      | Value.Float _ =>
          if c.c_type ≠ CType.FLOAT then some (Except.error ErrCode.BAD_VALUE)
          else validate_values_go db vs cs
      | Value.Text _ =>
          if c.c_type ≠ CType.STRING then some (Except.error ErrCode.BAD_VALUE)
          else validate_values_go db vs cs
      | Value.Foreign referenced_row_id =>
          if c.c_type ≠ CType.FOREIGN then some (Except.error ErrCode.BAD_VALUE)
          else if referenced_row_id ≠ 0 then
            if c.c_ref - 1 < 0 then none
            else
              match db.tables[(c.c_ref - 1).toNat]? with
              | none => none
              | some referenced_table =>
                  if lookupA referenced_table.rows referenced_row_id = none then
                    some (Except.error ErrCode.BAD_FOREIGN)
                  else validate_values_go db vs cs
          else validate_values_go db vs cs

/-- `validate_values_against_schema` entry point: the length check followed by
the per-position loop. -/
def validate_values_against_schema (values : List Value)
    (table_cols : List ColumnMetadata) (db : Database) : Option (Except ErrCode Bool) :=
  if values.length ≠ table_cols.length then some (Except.error ErrCode.BAD_ROW)
  else validate_values_go db values table_cols

/-! ### The five operation handlers -/

/-- The result of one engine operation: `none` embeds a panic; otherwise the
response (or error code) together with the state after the call. -/
abbrev OpResult := Option (Except ErrCode Resp × Database)

/-- `handle_insert` (src/database.rs lines 100-142). -/
def handle_insert (db : Database) (table_id : Int) (values : List Value) : OpResult :=
  if validate_table_id db.tables table_id = false then
    some (Except.error ErrCode.BAD_TABLE, db)
  else
    match db.tables[(table_id - 1).toNat]? with
    | none => none
    | some target_table =>
        match validate_values_against_schema values target_table.table_schema.t_cols db with
        | none => none
        | some (Except.error e) => some (Except.error e, db)
        | some (Except.ok _) =>
            let inserted_row_key := db.next_row_key
            let foreign_referenced_rows := get_all_referenced_rows values
            let frm' := add_to_foreign_reference_map db.foreign_references_map
              foreign_referenced_rows inserted_row_key table_id
            let rows' := insertA target_table.rows inserted_row_key ⟨1, values⟩
            some (Except.ok (Resp.Insert inserted_row_key 1),
              ⟨setTableRows db.tables (table_id - 1).toNat rows', db.next_row_key + 1, frm'⟩)

/-- `handle_update` (src/database.rs lines 144-205). -/
def handle_update (db : Database) (table_id : Int) (object_id : Int)
    (version : Int) (new_values : List Value) : OpResult :=
  if validate_table_id db.tables table_id = false then
    some (Except.error ErrCode.BAD_TABLE, db)
  else
    match db.tables[(table_id - 1).toNat]? with
    | none => none
    | some target_table =>
        match validate_values_against_schema new_values target_table.table_schema.t_cols db with
        | none => none
        | some (Except.error e) => some (Except.error e, db)
        | some (Except.ok _) =>
            match lookupA target_table.rows object_id with
            | none => some (Except.error ErrCode.NOT_FOUND, db)
            | some target_row =>
                if target_row.version ≠ version ∧ version ≠ 0 then
                  some (Except.error ErrCode.TXN_ABORT, db)
                else
                  let prev_foreign_referenced_rows := get_all_referenced_rows target_row.data
                  let new_foreign_referenced_rows := get_all_referenced_rows new_values
                  match remove_from_foreign_reference_map db.foreign_references_map
                      prev_foreign_referenced_rows object_id table_id with
                  | none => none
                  | some frm1 =>
                      let frm2 := add_to_foreign_reference_map frm1
                        new_foreign_referenced_rows object_id table_id
                      let new_version_num := version + 1
                      let rows' := insertA target_table.rows object_id
                        ⟨new_version_num, new_values⟩
                      some (Except.ok (Resp.Update new_version_num),
                        ⟨setTableRows db.tables (table_id - 1).toNat rows',
                          db.next_row_key, frm2⟩)

/-- Total number of stored rows across all tables. -/
def totalRows (tables : List DatabaseTable) : Nat :=
  (tables.map (fun t => t.rows.length)).sum

/-- Termination measure for the cascading drop: rows in tables plus entries in
the reverse-reference index (the finite, never-growing sets of the spec). -/
def measureD (db : Database) : Nat :=
  totalRows db.tables + db.foreign_references_map.length

/-- The `for (referencing_table_id, referencing_row_id) in referencing_rows`
loop of `drop_helper` (src/database.rs lines 246-249): recursively drop each
pair via the supplied recursive call `f`, discarding each recursive result. -/
def drop_list_go (f : Database → Int → Int → OpResult) :
    Database → List (Int × Int) → Option Database
  | db, [] => some db
  | db, (t, r) :: rest =>
      match f db t r with
      | none => none
      | some (_, db') => drop_list_go f db' rest

/-- One unfolding of `drop_helper` (src/database.rs lines 218-254) with the
recursive call abstracted as `f`: validate the table id, remove the row
(`NOT_FOUND` when absent), remove the reverse-reference entry keyed by the
removed row id, and recursively drop every referencing pair. This is the
*completion model*: it ignores the row-map `MutexGuard` obtained at line 230
and held across the recursive calls at line 248, so it computes the state the
cascade produces when every lock acquisition returns; `drop_locked_step` below
is the faithful lock-tracking embedding of the same code. -/
def drop_helper_step (f : Database → Int → Int → OpResult)
    (db : Database) (table_id : Int) (object_id : Int) : OpResult :=
  if validate_table_id db.tables table_id = false then
    some (Except.error ErrCode.BAD_TABLE, db)
  else
    match db.tables[(table_id - 1).toNat]? with
    | none => none
    | some target_table =>
        match lookupA target_table.rows object_id with
        | none => some (Except.error ErrCode.NOT_FOUND, db)
        | some _ =>
            let rows' := eraseA target_table.rows object_id
            let db1 : Database :=
              ⟨setTableRows db.tables (table_id - 1).toNat rows',
                db.next_row_key, db.foreign_references_map⟩
            match lookupA db1.foreign_references_map object_id with
            | none => some (Except.ok Resp.Drop, db1)
            | some referencing_rows =>
                let db2 : Database :=
                  ⟨db1.tables, db1.next_row_key,
                    eraseA db1.foreign_references_map object_id⟩
                match drop_list_go f db2 referencing_rows with
                | none => none
                | some db3 => some (Except.ok Resp.Drop, db3)

/-- `drop_helper` with explicit fuel; `none` embeds fuel exhaustion (never
reached with fuel above `measureD`, the termination argument). -/
def drop_helper_fuel : Nat → Database → Int → Int → OpResult
  | 0, _, _, _ => none
  | fuel + 1, db, table_id, object_id =>
      drop_helper_step (drop_helper_fuel fuel) db table_id object_id

/-- `handle_drop` (src/database.rs lines 207-216): run the cascading drop with
adequate fuel. -/
def handle_drop (db : Database) (table_id : Int) (object_id : Int) : OpResult :=
  drop_helper_fuel (measureD db + 1) db table_id object_id

/-- Outcome of a `drop_helper` call in the lock-tracking model: either the call
returns (with its result and the resulting state), or it is `stuck` — it called
`lock()` on a `std::sync::Mutex` whose guard is still alive in a caller's frame
on this thread, a call that never returns. -/
inductive DropOutcome where
  | returns (res : Except ErrCode Resp) (db : Database)
  | stuck

/-- Outcome of the cascade loop in the lock-tracking model. -/
inductive CascadeOut where
  | stuck
  | done (db : Database)

/-- The cascade loop of `drop_helper` (src/database.rs lines 246-249) in the
lock-tracking model: each recursive call runs with the held-lock list `held`,
and a `stuck` recursive call leaves the whole loop stuck. -/
def drop_locked_go (f : List Nat → Database → Int → Int → Option DropOutcome)
    (held : List Nat) : Database → List (Int × Int) → Option CascadeOut
  | db, [] => some (CascadeOut.done db)
  | db, (t, r) :: rest =>
      match f held db t r with
      | none => none
      | some DropOutcome.stuck => some CascadeOut.stuck
      | some (DropOutcome.returns _ db') => drop_locked_go f held db' rest

/-- One unfolding of `drop_helper` (src/database.rs lines 218-254) in the
lock-tracking model. `held` lists the 0-based indices of tables whose row-map
`MutexGuard` (obtained at line 230) is alive in a frame of the current call
stack: the guard binds at line 230 and drops only at line 254, after the
recursive calls at line 248, so the callee runs with the caller's table still
locked. `std::sync::Mutex` is not reentrant — locking a mutex already held by
the current thread never returns — so reaching `lock()` on a table in `held`
yields `stuck`. -/
def drop_locked_step (f : List Nat → Database → Int → Int → Option DropOutcome)
    (held : List Nat) (db : Database) (table_id : Int) (object_id : Int) :
    Option DropOutcome :=
  if validate_table_id db.tables table_id = false then
    some (DropOutcome.returns (Except.error ErrCode.BAD_TABLE) db)
  else
    match db.tables[(table_id - 1).toNat]? with
    | none => none
    | some target_table =>
        if (table_id - 1).toNat ∈ held then some DropOutcome.stuck
        else
          match lookupA target_table.rows object_id with
          | none => some (DropOutcome.returns (Except.error ErrCode.NOT_FOUND) db)
          | some _ =>
              let rows' := eraseA target_table.rows object_id
              let db1 : Database :=
                ⟨setTableRows db.tables (table_id - 1).toNat rows',
                  db.next_row_key, db.foreign_references_map⟩
              match lookupA db1.foreign_references_map object_id with
              | none => some (DropOutcome.returns (Except.ok Resp.Drop) db1)
              | some referencing_rows =>
                  let db2 : Database :=
                    ⟨db1.tables, db1.next_row_key,
                      eraseA db1.foreign_references_map object_id⟩
                  match drop_locked_go f ((table_id - 1).toNat :: held) db2
                      referencing_rows with
                  | none => none
                  | some CascadeOut.stuck => some DropOutcome.stuck
                  | some (CascadeOut.done db3) =>
                      some (DropOutcome.returns (Except.ok Resp.Drop) db3)

/-- `drop_helper` in the lock-tracking model, with explicit fuel. -/
def drop_locked_fuel : Nat → List Nat → Database → Int → Int → Option DropOutcome
  | 0, _, _, _, _ => none
  | fuel + 1, held, db, table_id, object_id =>
      drop_locked_step (drop_locked_fuel fuel) held db table_id object_id

/-- `handle_drop` (src/database.rs lines 207-216) in the lock-tracking model:
the top-level call starts with no table lock held. -/
def handle_drop_locked (db : Database) (table_id : Int) (object_id : Int) :
    Option DropOutcome :=
  drop_locked_fuel (measureD db + 1) [] db table_id object_id

/-- `handle_get` (src/database.rs lines 256-284). -/
def handle_get (db : Database) (table_id : Int) (object_id : Int) : OpResult :=
  if validate_table_id db.tables table_id = false then
    some (Except.error ErrCode.BAD_TABLE, db)
  else
    match db.tables[(table_id - 1).toNat]? with
    | none => none
    | some target_table =>
        match lookupA target_table.rows object_id with
        | none => some (Except.error ErrCode.NOT_FOUND, db)
        | some target_row =>
            some (Except.ok (Resp.Get target_row.version target_row.data), db)

/-- Modelled from the spec (packet.rs is not under src/): the strict order on
values used by `<`, `>` in the query evaluator; defined only within a single
numeric or text variant, cross-variant comparison never holds. -/
def valueLt : Value → Value → Bool
  | Value.Integer a, Value.Integer b => decide (a < b)
  | Value.Float a, Value.Float b => decide (a < b)
  | Value.Text a, Value.Text b => decide (a < b)
  | Value.Foreign a, Value.Foreign b => decide (a < b)
  | _, _ => false

/-- Modelled from the spec (packet.rs is not under src/): the non-strict order
on values used by `<=`, `>=` in the query evaluator. -/
def valueLe : Value → Value → Bool
  | Value.Integer a, Value.Integer b => decide (a ≤ b)
  | Value.Float a, Value.Float b => decide (a ≤ b)
  | Value.Text a, Value.Text b => decide (a ≤ b)
  | Value.Foreign a, Value.Foreign b => decide (a ≤ b)
  | _, _ => false

/-- The `OP_EQ` scan loop of `handle_query` (src/database.rs lines 363-376):
for each row, when the (decremented) column index is 0 first test the row id
against an Integer comparand, then unconditionally also test
`row.data[column_id]` (both pushes can fire). `none` embeds the indexing
panic. -/
def scanEQ : List (Int × DatabaseTableRow) → Nat → Value → Option (List Int)
  | [], _, _ => some []
  | (id, row) :: rest, column_id, other =>
      let part1 : List Int :=
        if column_id = 0 then
          match other with
          | Value.Integer value => if id = value then [id] else []
          | _ => []
        else []
      match row.data[column_id]? with
      | none => none
      | some dv =>
          let part2 : List Int := if dv = other then [id] else []
          match scanEQ rest column_id other with
          | none => none
          | some res => some (part1 ++ part2 ++ res)

/-- The `OP_NE` scan loop of `handle_query` (src/database.rs lines 377-390),
same double-path shape as `OP_EQ` with the data test negated. -/
def scanNE : List (Int × DatabaseTableRow) → Nat → Value → Option (List Int)
  | [], _, _ => some []
  | (id, row) :: rest, column_id, other =>
      let part1 : List Int :=
        if column_id = 0 then
          match other with
          | Value.Integer value => if id = value then [id] else []
          | _ => []
        else []
      match row.data[column_id]? with
      | none => none
      | some dv =>
          let part2 : List Int := if dv ≠ other then [id] else []
          match scanNE rest column_id other with
          | none => none
          | some res => some (part1 ++ part2 ++ res)

/-- An ordered-operator scan loop of `handle_query` (src/database.rs lines
397-401 and the three analogous loops), parameterized by the comparison. -/
def scanCmp (cmp : Value → Value → Bool) :
    List (Int × DatabaseTableRow) → Nat → Value → Option (List Int)
  | [], _, _ => some []
  | (id, row) :: rest, column_id, other =>
      match row.data[column_id]? with
      | none => none
      | some dv =>
          match scanCmp cmp rest column_id other with
          | none => none
          | some res => some ((if cmp dv other then [id] else []) ++ res)

/-- `handle_query` (src/database.rs lines 286-446): table-id validation, the
`OP_AL` special case, column-id validation, the comparand/column type check,
then the per-operator scan. The source reads the table under its lock and
never mutates state, so the embedding computes only the response. -/
def handle_query_res (db : Database) (table_id : Int) (column_id : Int)
    (operator : Int) (other : Value) : Option (Except ErrCode Resp) :=
  if validate_table_id db.tables table_id = false then
    some (Except.error ErrCode.BAD_TABLE)
  else
    match db.tables[(table_id - 1).toNat]? with
    | none => none
    | some target_table =>
        let target_table_rows := target_table.rows
        let target_table_cols := target_table.table_schema.t_cols
        if operator = OP_AL then
          if column_id ≠ 0 then some (Except.error ErrCode.BAD_QUERY)
          else some (Except.ok (Resp.Query (target_table_rows.map (fun p => p.1))))
        else if validate_column_id target_table column_id = false then
          some (Except.error ErrCode.BAD_QUERY)
        else
          let column_id0 : Nat := (column_id - 1).toNat
          match target_table_cols[column_id0]? with
          | none => none
          | some target_col =>
              let target_col_type := target_col.c_type
              let type_ok : Bool :=
                match other with
                | Value.Null => decide (target_col_type = CType.NULL)
                | Value.Integer _ => decide (target_col_type = CType.INTEGER)
                | Value.Float _ => decide (target_col_type = CType.FLOAT)
                | Value.Text _ => decide (target_col_type = CType.STRING)
                | Value.Foreign _ => decide (target_col_type = CType.FOREIGN)
              if type_ok = false then some (Except.error ErrCode.BAD_QUERY)
              else if operator = OP_EQ then
                match scanEQ target_table_rows column_id0 other with
                | none => none
                | some res => some (Except.ok (Resp.Query res))
              else if operator = OP_NE then
                match scanNE target_table_rows column_id0 other with
                | none => none
                | some res => some (Except.ok (Resp.Query res))
              else if operator = OP_LT then
                if target_col_type = CType.FOREIGN ∨ column_id0 = 0 then
                  some (Except.error ErrCode.BAD_QUERY)
                else
                  match scanCmp valueLt target_table_rows column_id0 other with
                  | none => none
                  | some res => some (Except.ok (Resp.Query res))
              else if operator = OP_GT then
                if target_col_type = CType.FOREIGN ∨ column_id0 = 0 then
                  some (Except.error ErrCode.BAD_QUERY)
                else
                  match scanCmp (fun a b => valueLt b a) target_table_rows column_id0 other with
                  | none => none
                  | some res => some (Except.ok (Resp.Query res))
              else if operator = OP_LE then
                if target_col_type = CType.FOREIGN ∨ column_id0 = 0 then
                  some (Except.error ErrCode.BAD_QUERY)
                else
                  match scanCmp valueLe target_table_rows column_id0 other with
                  | none => none
                  | some res => some (Except.ok (Resp.Query res))
              else if operator = OP_GE then
                if target_col_type = CType.FOREIGN ∨ column_id0 = 0 then
                  some (Except.error ErrCode.BAD_QUERY)
                else
                  match scanCmp (fun a b => valueLe b a) target_table_rows column_id0 other with
                  | none => none
                  | some res => some (Except.ok (Resp.Query res))
              else some (Except.error ErrCode.BAD_QUERY)

/-- `handle_query` as an engine operation: the computed response paired with
the (unchanged) state. -/
def handle_query (db : Database) (table_id : Int) (column_id : Int)
    (operator : Int) (other : Value) : OpResult :=
  match handle_query_res db table_id column_id operator other with
  | none => none
  | some x => some (x, db)

/-! ### Concrete example schemas and states (the spec's two-table scenario:
`T1` with columns `[Integer]`, `T2` with columns `[Foreign - T1]`) -/

/-- Example schema `T1` with a single Integer column. -/
def exT1 : TableMetadata := ⟨[⟨CType.INTEGER, 0⟩]⟩

/-- Example schema `T2` with a single Foreign column referencing table 1. -/
def exT2 : TableMetadata := ⟨[⟨CType.FOREIGN, 1⟩]⟩

/-- The initial example database over `[exT1, exT2]`. -/
def exDB0 : Database := Database.new [exT1, exT2]

/-- Extract the post-state of an operation result (input state on panic). -/
def postState (o : OpResult) (d : Database) : Database :=
  match o with
  | some (_, s) => s
  | none => d

/-- State after `insert(T1, [Integer 42])` (row id 1). -/
def exDB1 : Database := postState (handle_insert exDB0 1 [Value.Integer 42]) exDB0

/-- State after a further `insert(T2, [Foreign 1])` (row id 2). -/
def exDB2 : Database := postState (handle_insert exDB1 2 [Value.Foreign 1]) exDB1

/-- State after a further `update(T1, 1, 1, [Integer 7])` (row 1 at version 2). -/
def exDB3 : Database := postState (handle_update exDB2 1 1 1 [Value.Integer 7]) exDB2

/-- State after `drop(T2, 2)` from `exDB2`: row 2 is gone but the
reverse-reference index still holds the stale entry `(2, 2)` under key 1. -/
def exDB4 : Database := postState (handle_drop exDB2 2 2) exDB2

/-- State after a forced `update(T1, 1, 0, [Integer 9])` from `exDB2`. -/
def exDB5 : Database := postState (handle_update exDB2 1 1 0 [Value.Integer 9]) exDB2

/-- State after a second forced `update(T1, 1, 0, [Integer 9])` from `exDB5`. -/
def exDB6 : Database := postState (handle_update exDB5 1 1 0 [Value.Integer 9]) exDB5

/-- State after the cascading `drop(T1, 1)` from `exDB2` (removes rows 1 and 2). -/
def exDB7 : Database := postState (handle_drop exDB2 1 1) exDB2

/-- The record stored for row `object_id` of (1-based) table `table_id`, if
any: the observable row state the claims talk about. -/
def rowAt (db : Database) (table_id : Int) (object_id : Int) : Option DatabaseTableRow :=
  match db.tables[(table_id - 1).toNat]? with
  | none => none
  | some tt => lookupA tt.rows object_id

/-- The record stored for row `r` of the table at 0-based index `i`. -/
def rowAtIdx (db : Database) (i : Nat) (r : Int) : Option DatabaseTableRow :=
  match db.tables[i]? with
  | none => none
  | some tt => lookupA tt.rows r

/-- State inclusion along a (cascading) drop: tables keep their count and
schemas, surviving rows keep their records, surviving reverse-reference
entries are unchanged, the allocator is untouched, and the termination measure
does not grow. -/
def Shrink (s s' : Database) : Prop :=
  s'.tables.length = s.tables.length ∧
  (∀ (i : Nat) (tt' : DatabaseTable), s'.tables[i]? = some tt' →
    ∃ tt : DatabaseTable, s.tables[i]? = some tt ∧ tt'.table_schema = tt.table_schema) ∧
  (∀ i r rec, rowAtIdx s' i r = some rec → rowAtIdx s i r = some rec) ∧
  (∀ k E, lookupA s'.foreign_references_map k = some E →
    lookupA s.foreign_references_map k = some E) ∧
  s'.next_row_key = s.next_row_key ∧
  measureD s' ≤ measureD s

/-- Every reverse-reference entry wholly removed along the way had all its
registered referencing rows (with a valid table part; the cascade skips a pair
whose table id fails validation with `BAD_TABLE`) removed as well. -/
def FrmRemovedProcessed (s s' : Database) : Prop :=
  ∀ k E, lookupA s.foreign_references_map k = some E →
    lookupA s'.foreign_references_map k = none →
    ∀ p ∈ E, validate_table_id s.tables p.1 = true →
      rowAtIdx s' (p.1 - 1).toNat p.2 = none

/-- Every row removed along the way had the reverse-reference entry keyed by
its row id removed as well. -/
def RemovedRowsFrmGone (s s' : Database) : Prop :=
  ∀ i r, rowAtIdx s i r ≠ none → rowAtIdx s' i r = none →
    lookupA s'.foreign_references_map r = none

/-- The combined postcondition of one (recursive) cascading-drop call. -/
def DropPost (s s' : Database) : Prop :=
  Shrink s s' ∧ FrmRemovedProcessed s s' ∧ RemovedRowsFrmGone s s'

/-- One committed engine operation (any of the five handlers run without a
panic), relating the state before to the state after. -/
inductive Step : Database → Database → Prop where
  | insert (db : Database) (t : Int) (vals : List Value)
      (res : Except ErrCode Resp) (db' : Database) :
      handle_insert db t vals = some (res, db') → Step db db'
  | update (db : Database) (t r v : Int) (vals : List Value)
      (res : Except ErrCode Resp) (db' : Database) :
      handle_update db t r v vals = some (res, db') → Step db db'
  | dropOp (db : Database) (t r : Int)
      (res : Except ErrCode Resp) (db' : Database) :
      handle_drop db t r = some (res, db') → Step db db'
  | getOp (db : Database) (t r : Int)
      (res : Except ErrCode Resp) (db' : Database) :
      handle_get db t r = some (res, db') → Step db db'
  | queryOp (db : Database) (t c op : Int) (o : Value)
      (res : Except ErrCode Resp) (db' : Database) :
      handle_query db t c op o = some (res, db') → Step db db'

/-- Finitely many committed operations. -/
inductive StepStar : Database → Database → Prop where
  | refl (db : Database) : StepStar db db
  | tail (db1 db2 db3 : Database) : StepStar db1 db2 → Step db2 db3 → StepStar db1 db3

/-- Well-formedness of a startup schema list: each Foreign column names an
existing (1-based) table. The schema loader supplies such a list; the engine
indexes `c_ref` unchecked. -/
def WFSchemas (ts : List TableMetadata) : Prop :=
  ∀ tm ∈ ts, ∀ c ∈ tm.t_cols,
    c.c_type = CType.FOREIGN → 1 ≤ c.c_ref ∧ c.c_ref ≤ (ts.length : Int)

/-- States reachable by committed engine operations from a freshly constructed
database over a well-formed schema list. -/
inductive Reachable : Database → Prop where
  | init (ts : List TableMetadata) : WFSchemas ts → Reachable (Database.new ts)
  | step (db db' : Database) : Reachable db → Step db db' → Reachable db'

/-- Schema well-formedness restated on the live state. -/
def WFS (db : Database) : Prop :=
  ∀ (i : Nat) (tt : DatabaseTable), db.tables[i]? = some tt →
    ∀ c ∈ tt.table_schema.t_cols,
      c.c_type = CType.FOREIGN → 1 ≤ c.c_ref ∧ c.c_ref ≤ (db.tables.length : Int)

/-- Allocator discipline: it is at least 1 and strictly above every stored
row id, and stored row ids are at least 1 (so row id 0 is never assigned). -/
def IdsBound (db : Database) : Prop :=
  1 ≤ db.next_row_key ∧
  ∀ i r rec, rowAtIdx db i r = some rec → 1 ≤ r ∧ r < db.next_row_key

/-- Row ids are unique across all tables. -/
def IdsUnique (db : Database) : Prop :=
  ∀ i j r reci recj, rowAtIdx db i r = some reci → rowAtIdx db j r = some recj → i = j

/-- Every registered referencing pair names a valid table and a row id below
the allocator (so a fresh insert can never collide with a stale pair). -/
def FrmPairsBound (db : Database) : Prop :=
  ∀ k E, lookupA db.foreign_references_map k = some E →
    ∀ p ∈ E, 1 ≤ p.1 ∧ p.1 ≤ (db.tables.length : Int) ∧ p.2 < db.next_row_key

/-- Completeness of the reverse-reference index: every non-zero foreign
target `k` stored in a live row has that row registered under key `k`. -/
def Complete (db : Database) : Prop :=
  ∀ i r rec, rowAtIdx db i r = some rec →
    ∀ k ∈ get_all_referenced_rows rec.data,
      ∃ E, lookupA db.foreign_references_map k = some E ∧ ((i : Int) + 1, r) ∈ E

/-- Soundness of the reverse-reference index restricted to live rows: a
registered pair whose row still exists really stores the key as a non-zero
foreign target (stale pairs may only name rows that no longer exist). -/
def SoundEx (db : Database) : Prop :=
  ∀ k E, lookupA db.foreign_references_map k = some E →
    ∀ p ∈ E, ∀ rec, rowAtIdx db (p.1 - 1).toNat p.2 = some rec →
      k ∈ get_all_referenced_rows rec.data

/-- The master state invariant maintained by every committed operation. -/
def Inv (db : Database) : Prop :=
  WFS db ∧ IdsBound db ∧ IdsUnique db ∧ FrmPairsBound db ∧ Complete db ∧ SoundEx db

/-- Row id `m` (whose row exists) transitively holds a non-zero foreign
reference to row id `target`: directly, or through a chain of stored non-zero
foreign values. -/
inductive TransRef (db : Database) (target : Int) : Int → Prop where
  | direct (m : Int) (i : Nat) (rec : DatabaseTableRow) :
      rowAtIdx db i m = some rec → target ∈ get_all_referenced_rows rec.data →
      TransRef db target m
  | trans (m j : Int) (i : Nat) (rec : DatabaseTableRow) :
      rowAtIdx db i m = some rec → j ∈ get_all_referenced_rows rec.data →
      TransRef db target j → TransRef db target m

/-- A concrete state with a cross-table reference cycle: row 1 (table 1)
holds `Foreign 2` and row 2 (table 2) holds `Foreign 1`, with the matching
reverse-reference entries. -/
def exCyc : Database :=
  ⟨[⟨⟨[⟨CType.FOREIGN, 2⟩]⟩, [(1, ⟨1, [Value.Foreign 2]⟩)]⟩,
    ⟨⟨[⟨CType.FOREIGN, 1⟩]⟩, [(2, ⟨1, [Value.Foreign 1]⟩)]⟩],
   3,
   [(1, [(2, 2)]), (2, [(1, 1)])]⟩

/-! ### Association-list lemmas -/

theorem lookupA_eraseA_self {α : Type} (l : List (Int × α)) (k : Int) :
    lookupA (eraseA l k) k = none := by
  induction l with
  | nil => rfl
  | cons p rest ih =>
      obtain ⟨k', v⟩ := p
      by_cases h : k' = k <;> simp [eraseA, lookupA, h, ih]

theorem lookupA_eraseA_ne {α : Type} (l : List (Int × α)) (k k' : Int) (h : k' ≠ k) :
    lookupA (eraseA l k) k' = lookupA l k' := by
  induction l with
  | nil => rfl
  | cons p rest ih =>
      obtain ⟨k0, v⟩ := p
      by_cases hk : k0 = k
      · subst hk
        have he : eraseA ((k0, v) :: rest) k0 = eraseA rest k0 := by simp [eraseA]
        rw [he, ih, lookupA, if_neg (fun hh : k0 = k' => h hh.symm)]
      · simp only [eraseA, if_neg hk, lookupA]
        by_cases hk' : k0 = k'
        · rw [if_pos hk', if_pos hk']
        · rw [if_neg hk', if_neg hk', ih]

theorem lookupA_insertA_self {α : Type} (l : List (Int × α)) (k : Int) (v : α) :
    lookupA (insertA l k v) k = some v := by
  simp [insertA, lookupA]

theorem lookupA_insertA_ne {α : Type} (l : List (Int × α)) (k k' : Int) (v : α) (h : k' ≠ k) :
    lookupA (insertA l k v) k' = lookupA l k' := by
  simp only [insertA, lookupA]
  rw [if_neg (fun hh : k = k' => h hh.symm)]
  exact lookupA_eraseA_ne l k k' h

theorem eraseA_length_le {α : Type} (l : List (Int × α)) (k : Int) :
    (eraseA l k).length ≤ l.length := by
  induction l with
  | nil => simp [eraseA]
  | cons p rest ih =>
      obtain ⟨k0, v⟩ := p
      by_cases h : k0 = k <;> simp [eraseA, h] <;> omega

theorem eraseA_length_lt {α : Type} (l : List (Int × α)) (k : Int) {v : α}
    (h : lookupA l k = some v) : (eraseA l k).length < l.length := by
  induction l with
  | nil => simp [lookupA] at h
  | cons p rest ih =>
      obtain ⟨k0, v0⟩ := p
      by_cases hk : k0 = k
      · simp only [eraseA, if_pos hk, List.length_cons]
        exact Nat.lt_succ_of_le (eraseA_length_le rest k)
      · simp only [lookupA, if_neg hk] at h
        simp only [eraseA, if_neg hk, List.length_cons]
        exact Nat.succ_lt_succ (ih h)

/-! ### setTableRows lemmas -/

theorem setTableRows_length (l : List DatabaseTable) (i : Nat)
    (rows' : List (Int × DatabaseTableRow)) :
    (setTableRows l i rows').length = l.length := by
  induction l generalizing i with
  | nil => cases i <;> rfl
  | cons t rest ih => cases i <;> simp [setTableRows, ih]

theorem setTableRows_get_self (l : List DatabaseTable) (i : Nat) (t : DatabaseTable)
    (rows' : List (Int × DatabaseTableRow)) (h : l[i]? = some t) :
    (setTableRows l i rows')[i]? = some ⟨t.table_schema, rows'⟩ := by
  induction l generalizing i with
  | nil => simp at h
  | cons t0 rest ih =>
      cases i with
      | zero => simp at h; subst h; simp [setTableRows]
      | succ n =>
          simp only [List.getElem?_cons_succ] at h
          simpa [setTableRows] using ih n h

theorem setTableRows_get_ne (l : List DatabaseTable) (i j : Nat)
    (rows' : List (Int × DatabaseTableRow)) (h : j ≠ i) :
    (setTableRows l i rows')[j]? = l[j]? := by
  induction l generalizing i j with
  | nil => cases i <;> rfl
  | cons t0 rest ih =>
      cases i with
      | zero =>
          cases j with
          | zero => exact absurd rfl h
          | succ m => simp [setTableRows]
      | succ n =>
          cases j with
          | zero => simp [setTableRows]
          | succ m =>
              simp only [setTableRows, List.getElem?_cons_succ]
              exact ih n m (fun hh => h (by omega))

theorem validate_table_id_setTableRows (db_tables : List DatabaseTable) (i : Nat)
    (rows' : List (Int × DatabaseTableRow)) (t : Int) :
    validate_table_id (setTableRows db_tables i rows') t = validate_table_id db_tables t := by
  simp [validate_table_id, setTableRows_length]

/-! ### Set and referenced-rows lemmas -/

theorem mem_insertSetI (s : List Int) (x y : Int) :
    y ∈ insertSetI s x ↔ y = x ∨ y ∈ s := by
  unfold insertSetI
  split
  next hx =>
    constructor
    · exact fun h => Or.inr h
    · rintro (rfl | h)
      · exact hx
      · exact h
  · simp

theorem mem_insertSetP (s : List (Int × Int)) (x y : Int × Int) :
    y ∈ insertSetP s x ↔ y = x ∨ y ∈ s := by
  unfold insertSetP
  split
  next hx =>
    constructor
    · exact fun h => Or.inr h
    · rintro (rfl | h)
      · exact hx
      · exact h
  · simp

theorem mem_removeSetP (s : List (Int × Int)) (x y : Int × Int) :
    y ∈ removeSetP s x ↔ y ∈ s ∧ y ≠ x := by
  induction s with
  | nil => simp [removeSetP]
  | cons z rest ih =>
      unfold removeSetP
      split
      next hz =>
        subst hz
        rw [ih]
        constructor
        · rintro ⟨h1, h2⟩; exact ⟨List.mem_cons_of_mem z h1, h2⟩
        · rintro ⟨h1, h2⟩
          rcases List.mem_cons.mp h1 with rfl | h1
          · exact absurd rfl h2
          · exact ⟨h1, h2⟩
      next hz =>
        constructor
        · intro h
          rcases List.mem_cons.mp h with rfl | h
          · exact ⟨List.mem_cons_self y rest, hz⟩
          · obtain ⟨h1, h2⟩ := ih.mp h
            exact ⟨List.mem_cons_of_mem z h1, h2⟩
        · rintro ⟨h1, h2⟩
          rcases List.mem_cons.mp h1 with rfl | h1
          · exact List.mem_cons_self y _
          · exact List.mem_cons_of_mem z (ih.mpr ⟨h1, h2⟩)

theorem mem_get_all_referenced_rows (vals : List Value) (k : Int) :
    k ∈ get_all_referenced_rows vals ↔ Value.Foreign k ∈ vals ∧ k ≠ 0 := by
  induction vals with
  | nil => simp [get_all_referenced_rows]
  | cons v rest ih =>
      cases v with
      | Foreign r =>
          unfold get_all_referenced_rows
          split
          next hr =>
            subst hr
            rw [ih]
            simp only [List.mem_cons, Value.Foreign.injEq]
            constructor
            · rintro ⟨h1, h2⟩; exact ⟨Or.inr h1, h2⟩
            · rintro ⟨h1 | h1, h2⟩
              · exact absurd h1 h2
              · exact ⟨h1, h2⟩
          next hr =>
            rw [mem_insertSetI, ih]
            simp only [List.mem_cons, Value.Foreign.injEq]
            constructor
            · rintro (rfl | ⟨h1, h2⟩)
              · exact ⟨Or.inl rfl, hr⟩
              · exact ⟨Or.inr h1, h2⟩
            · rintro ⟨h1 | h1, h2⟩
              · exact Or.inl h1
              · exact Or.inr ⟨h1, h2⟩
      | Null => simp [get_all_referenced_rows, ih]
      | Integer i => simp [get_all_referenced_rows, ih]
      | Float b => simp [get_all_referenced_rows, ih]
      | Text s => simp [get_all_referenced_rows, ih]

/-! ### Measure and table-access lemmas -/

theorem totalRows_setTableRows (tables : List DatabaseTable) (i : Nat)
    (tt : DatabaseTable) (rows' : List (Int × DatabaseTableRow))
    (h : tables[i]? = some tt) :
    totalRows (setTableRows tables i rows') + tt.rows.length
      = totalRows tables + rows'.length := by
  induction tables generalizing i with
  | nil => simp at h
  | cons t rest ih =>
      cases i with
      | zero =>
          simp at h
          subst h
          simp [totalRows, setTableRows]
          omega
      | succ n =>
          simp only [List.getElem?_cons_succ] at h
          have := ih n h
          simp only [totalRows, setTableRows, List.map_cons, List.sum_cons] at this ⊢
          omega

theorem validate_table_id_get (tables : List DatabaseTable) (t : Int)
    (h : validate_table_id tables t = true) :
    ∃ tt, tables[(t - 1).toNat]? = some tt := by
  unfold validate_table_id at h
  rw [decide_eq_true_eq] at h
  have hidx : (t - 1).toNat < tables.length := by omega
  exact ⟨tables[(t - 1).toNat], List.getElem?_eq_getElem hidx⟩

theorem validate_table_id_congr (tables' tables : List DatabaseTable)
    (h : tables'.length = tables.length) (t : Int) :
    validate_table_id tables' t = validate_table_id tables t := by
  simp [validate_table_id, h]

theorem lookupA_eraseA_some {α : Type} (l : List (Int × α)) (k k' : Int) (v : α)
    (h : lookupA (eraseA l k) k' = some v) : k' ≠ k ∧ lookupA l k' = some v := by
  by_cases hk : k' = k
  · subst hk
    rw [lookupA_eraseA_self] at h
    cases h
  · rw [lookupA_eraseA_ne l k k' hk] at h
    exact ⟨hk, h⟩

theorem rowAtIdx_congr (db db' : Database) (h : db.tables = db'.tables)
    (i : Nat) (r : Int) : rowAtIdx db i r = rowAtIdx db' i r := by
  unfold rowAtIdx
  rw [h]

theorem rowAtIdx_by_table (s : Database) (i : Nat) (tt : DatabaseTable)
    (htt : s.tables[i]? = some tt) (r : Int) :
    rowAtIdx s i r = lookupA tt.rows r := by
  unfold rowAtIdx
  rw [htt]

theorem rowAtIdx_set_self (tables : List DatabaseTable) (nk : Int) (frm : FRM)
    (i : Nat) (tt : DatabaseTable) (rows' : List (Int × DatabaseTableRow))
    (h : tables[i]? = some tt) (r : Int) :
    rowAtIdx ⟨setTableRows tables i rows', nk, frm⟩ i r = lookupA rows' r := by
  unfold rowAtIdx
  rw [show (Database.mk (setTableRows tables i rows') nk frm).tables
      = setTableRows tables i rows' from rfl]
  rw [setTableRows_get_self tables i tt rows' h]

theorem rowAtIdx_set_ne (tables : List DatabaseTable) (nk : Int) (frm : FRM)
    (i j : Nat) (rows' : List (Int × DatabaseTableRow)) (h : j ≠ i)
    (nk' : Int) (frm' : FRM) (r : Int) :
    rowAtIdx ⟨setTableRows tables i rows', nk, frm⟩ j r
      = rowAtIdx ⟨tables, nk', frm'⟩ j r := by
  unfold rowAtIdx
  rw [show (Database.mk (setTableRows tables i rows') nk frm).tables
      = setTableRows tables i rows' from rfl]
  rw [setTableRows_get_ne tables i j rows' h]

/-! ### Shrink and DropPost structure lemmas -/

theorem Shrink_refl (s : Database) : Shrink s s :=
  ⟨rfl, fun _ tt' h => ⟨tt', h, rfl⟩, fun _ _ _ h => h, fun _ _ h => h, rfl, le_refl _⟩

theorem Shrink_absent {s s' : Database} (h : Shrink s s') {i : Nat} {r : Int}
    (hn : rowAtIdx s i r = none) : rowAtIdx s' i r = none := by
  cases hs' : rowAtIdx s' i r with
  | none => rfl
  | some rec => rw [h.2.2.1 i r rec hs'] at hn; cases hn

theorem Shrink_frm_absent {s s' : Database} (h : Shrink s s') {k : Int}
    (hn : lookupA s.foreign_references_map k = none) :
    lookupA s'.foreign_references_map k = none := by
  cases hs' : lookupA s'.foreign_references_map k with
  | none => rfl
  | some E => rw [h.2.2.2.1 k E hs'] at hn; cases hn

theorem Shrink_trans {s1 s2 s3 : Database} (h1 : Shrink s1 s2) (h2 : Shrink s2 s3) :
    Shrink s1 s3 := by
  obtain ⟨hl1, hs1, hr1, hf1, hk1, hm1⟩ := h1
  obtain ⟨hl2, hs2, hr2, hf2, hk2, hm2⟩ := h2
  refine ⟨hl2.trans hl1, ?_, ?_, ?_, hk2.trans hk1, hm2.trans hm1⟩
  · intro i tt3 h3
    obtain ⟨tt2, h2', he2⟩ := hs2 i tt3 h3
    obtain ⟨tt1, h1', he1⟩ := hs1 i tt2 h2'
    exact ⟨tt1, h1', he2.trans he1⟩
  · exact fun i r rec h => hr1 i r rec (hr2 i r rec h)
  · exact fun k E h => hf1 k E (hf2 k E h)

theorem DropPost_refl (s : Database) : DropPost s s := by
  refine ⟨Shrink_refl s, ?_, ?_⟩
  · intro k E hE hnone
    rw [hE] at hnone; cases hnone
  · intro i r hsome hnone
    exact absurd hnone hsome

theorem DropPost_trans {s1 s2 s3 : Database} (h1 : DropPost s1 s2) (h2 : DropPost s2 s3) :
    DropPost s1 s3 := by
  obtain ⟨hsh1, hq1, hr1⟩ := h1
  obtain ⟨hsh2, hq2, hr2⟩ := h2
  refine ⟨Shrink_trans hsh1 hsh2, ?_, ?_⟩
  · intro k E hE1 hE3 p hp hval
    cases hmid : lookupA s2.foreign_references_map k with
    | none => exact Shrink_absent hsh2 (hq1 k E hE1 hmid p hp hval)
    | some E' =>
        have := hsh1.2.2.2.1 k E' hmid
        rw [hE1] at this
        injection this with he
        subst he
        refine hq2 k E hmid hE3 p hp ?_
        rw [validate_table_id_congr s2.tables s1.tables hsh1.1 p.1]
        exact hval
  · intro i r h1ne h3none
    cases hmid : rowAtIdx s2 i r with
    | none => exact Shrink_frm_absent hsh2 (hr1 i r h1ne hmid)
    | some rec => exact hr2 i r (by rw [hmid]; exact fun h => Option.noConfusion h) h3none

/-! ### Drop: termination measure and fuel congruence -/

theorem drop_list_go_nil (f : Database → Int → Int → OpResult) (s : Database) :
    drop_list_go f s [] = some s := rfl

theorem drop_list_go_cons (f : Database → Int → Int → OpResult) (s : Database)
    (t r : Int) (rest : List (Int × Int)) :
    drop_list_go f s ((t, r) :: rest)
      = match f s t r with
        | none => none
        | some (_, db') => drop_list_go f db' rest := rfl

theorem drop_helper_fuel_succ (n : Nat) (db : Database) (t r : Int) :
    drop_helper_fuel (n + 1) db t r = drop_helper_step (drop_helper_fuel n) db t r := rfl

theorem drop_list_go_measure_le (f : Database → Int → Int → OpResult)
    (hf : ∀ s t r res s', f s t r = some (res, s') → measureD s' ≤ measureD s) :
    ∀ (E : List (Int × Int)) (s s' : Database),
      drop_list_go f s E = some s' → measureD s' ≤ measureD s := by
  intro E
  induction E with
  | nil =>
      intro s s' h
      rw [drop_list_go_nil] at h
      injection h with he
      subst he
      exact le_refl _
  | cons p rest ih =>
      obtain ⟨t, r⟩ := p
      intro s s' h
      rw [drop_list_go_cons] at h
      split at h
      · cases h
      next res s'' hcall =>
        exact (ih s'' s' h).trans (hf s t r res s'' hcall)

theorem drop_helper_step_measure_le (f : Database → Int → Int → OpResult)
    (hf : ∀ s t r res s', f s t r = some (res, s') → measureD s' ≤ measureD s) :
    ∀ s t r res s', drop_helper_step f s t r = some (res, s') →
      measureD s' ≤ measureD s := by
  intro s t r res s' h
  unfold drop_helper_step at h
  split at h
  · simp only [Option.some.injEq, Prod.mk.injEq] at h
    rw [← h.2]
  next hval =>
    split at h
    · cases h
    next tt htt =>
      split at h
      · simp only [Option.some.injEq, Prod.mk.injEq] at h
        rw [← h.2]
      next row hrow =>
        dsimp only at h
        have hset := totalRows_setTableRows s.tables (t - 1).toNat tt
          (eraseA tt.rows r) htt
        have herase := eraseA_length_lt tt.rows r hrow
        split at h
        next hfrm_none =>
          simp only [Option.some.injEq, Prod.mk.injEq] at h
          rw [← h.2]
          show totalRows (setTableRows s.tables (t - 1).toNat (eraseA tt.rows r))
              + s.foreign_references_map.length ≤ measureD s
          unfold measureD at *
          omega
        next E hfrmE =>
          split at h
          · cases h
          next db3 hgo =>
            simp only [Option.some.injEq, Prod.mk.injEq] at h
            rw [← h.2]
            have hfrm_len := eraseA_length_le s.foreign_references_map r
            have h3 := drop_list_go_measure_le f hf E _ db3 hgo
            unfold measureD at *
            dsimp only at h3
            omega

theorem drop_helper_fuel_measure_le :
    ∀ (fuel : Nat) (s : Database) (t r : Int) (res : Except ErrCode Resp) (s' : Database),
      drop_helper_fuel fuel s t r = some (res, s') → measureD s' ≤ measureD s := by
  intro fuel
  induction fuel with
  | zero => intro s t r res s' h; cases h
  | succ n ih =>
      intro s t r res s' h
      rw [drop_helper_fuel_succ] at h
      exact drop_helper_step_measure_le (drop_helper_fuel n)
        (fun s t r res s' hc => ih s t r res s' hc) s t r res s' h

theorem drop_list_congr_aux (n : Nat)
    (IH : ∀ (s : Database) (t r : Int) (f₁ f₂ : Nat), measureD s < n → measureD s < f₁ →
      measureD s < f₂ →
      drop_helper_fuel f₁ s t r = drop_helper_fuel f₂ s t r ∧
      drop_helper_fuel f₁ s t r ≠ none)
    (B : Nat) (hB : B < n) :
    ∀ (E : List (Int × Int)) (s : Database), measureD s ≤ B →
      ∀ g₁ g₂ : Nat, B < g₁ → B < g₂ →
      drop_list_go (drop_helper_fuel g₁) s E = drop_list_go (drop_helper_fuel g₂) s E ∧
      drop_list_go (drop_helper_fuel g₁) s E ≠ none := by
  intro E
  induction E with
  | nil =>
      intro s _ g₁ g₂ _ _
      rw [drop_list_go_nil, drop_list_go_nil]
      exact ⟨rfl, by simp⟩
  | cons p rest ihE =>
      obtain ⟨t, r⟩ := p
      intro s hs g₁ g₂ hg₁ hg₂
      have hms : measureD s < n := lt_of_le_of_lt hs hB
      have hcall := IH s t r g₁ g₂ hms (lt_of_le_of_lt hs hg₁) (lt_of_le_of_lt hs hg₂)
      cases hc : drop_helper_fuel g₁ s t r with
      | none => exact absurd hc hcall.2
      | some out =>
          obtain ⟨res, s''⟩ := out
          have hc₂ : drop_helper_fuel g₂ s t r = some (res, s'') := by
            rw [← hcall.1]; exact hc
          have hm'' : measureD s'' ≤ measureD s :=
            drop_helper_fuel_measure_le g₁ s t r res s'' hc
          rw [drop_list_go_cons, drop_list_go_cons, hc, hc₂]
          exact ihE s'' (hm''.trans hs) g₁ g₂ hg₁ hg₂

theorem drop_congr_main :
    ∀ (n : Nat) (s : Database) (t r : Int) (f₁ f₂ : Nat),
      measureD s < n → measureD s < f₁ → measureD s < f₂ →
      drop_helper_fuel f₁ s t r = drop_helper_fuel f₂ s t r ∧
      drop_helper_fuel f₁ s t r ≠ none := by
  intro n
  induction n with
  | zero => intro s t r f₁ f₂ h _ _; exact absurd h (Nat.not_lt_zero _)
  | succ n ih =>
      intro s t r f₁ f₂ hn h1 h2
      obtain ⟨m₁, rfl⟩ : ∃ m, f₁ = m + 1 := ⟨f₁ - 1, by omega⟩
      obtain ⟨m₂, rfl⟩ : ∃ m, f₂ = m + 1 := ⟨f₂ - 1, by omega⟩
      rw [drop_helper_fuel_succ, drop_helper_fuel_succ]
      unfold drop_helper_step
      by_cases hval : validate_table_id s.tables t = false
      · rw [if_pos hval, if_pos hval]
        exact ⟨rfl, by simp⟩
      · rw [if_neg hval, if_neg hval]
        have hvt : validate_table_id s.tables t = true := by
          revert hval; cases validate_table_id s.tables t <;> simp
        obtain ⟨tt, htt⟩ := validate_table_id_get s.tables t hvt
        rw [htt]
        dsimp only
        cases hrow : lookupA tt.rows r with
        | none =>
            dsimp only
            exact ⟨rfl, by simp⟩
        | some row =>
            dsimp only
            have hset := totalRows_setTableRows s.tables (t - 1).toNat tt
              (eraseA tt.rows r) htt
            have herase := eraseA_length_lt tt.rows r hrow
            cases hfrm : lookupA s.foreign_references_map r with
            | none =>
                dsimp only
                exact ⟨rfl, by simp⟩
            | some E =>
                dsimp only
                have hfrm_erase := eraseA_length_lt s.foreign_references_map r hfrm
                have hdb2 : measureD ⟨setTableRows s.tables (t - 1).toNat (eraseA tt.rows r),
                    s.next_row_key, eraseA s.foreign_references_map r⟩ < measureD s := by
                  unfold measureD at *
                  dsimp only
                  omega
                have hBn : measureD ⟨setTableRows s.tables (t - 1).toNat (eraseA tt.rows r),
                    s.next_row_key, eraseA s.foreign_references_map r⟩ < n :=
                  lt_of_lt_of_le hdb2 (Nat.lt_succ_iff.mp hn)
                have hlist := drop_list_congr_aux n ih _ hBn E
                  ⟨setTableRows s.tables (t - 1).toNat (eraseA tt.rows r),
                    s.next_row_key, eraseA s.foreign_references_map r⟩
                  (le_refl _) m₁ m₂
                  (lt_of_lt_of_le hdb2 (Nat.lt_succ_iff.mp h1))
                  (lt_of_lt_of_le hdb2 (Nat.lt_succ_iff.mp h2))
                rw [hlist.1]
                refine ⟨rfl, ?_⟩
                have hne := hlist.1 ▸ hlist.2
                cases hgo : drop_list_go (drop_helper_fuel m₂)
                    ⟨setTableRows s.tables (t - 1).toNat (eraseA tt.rows r),
                      s.next_row_key, eraseA s.foreign_references_map r⟩ E with
                | none => exact absurd hgo hne
                | some db3 => simp

/-! ### Drop: the combined postcondition -/

theorem Shrink_removal (s : Database) (t r : Int) (tt : DatabaseTable)
    (htt : s.tables[(t - 1).toNat]? = some tt)
    (frm' : FRM)
    (hsub : ∀ k E, lookupA frm' k = some E →
      lookupA s.foreign_references_map k = some E)
    (hlen : frm'.length ≤ s.foreign_references_map.length) :
    Shrink s ⟨setTableRows s.tables (t - 1).toNat (eraseA tt.rows r),
      s.next_row_key, frm'⟩ := by
  have hset := totalRows_setTableRows s.tables (t - 1).toNat tt (eraseA tt.rows r) htt
  have herase := eraseA_length_le tt.rows r
  refine ⟨setTableRows_length s.tables (t - 1).toNat (eraseA tt.rows r), ?_, ?_, hsub,
    rfl, ?_⟩
  · intro i tt' h'
    by_cases hi : i = (t - 1).toNat
    · subst hi
      rw [show (Database.mk (setTableRows s.tables (t - 1).toNat (eraseA tt.rows r))
          s.next_row_key frm').tables
          = setTableRows s.tables (t - 1).toNat (eraseA tt.rows r) from rfl,
        setTableRows_get_self s.tables (t - 1).toNat tt (eraseA tt.rows r) htt] at h'
      injection h' with he
      exact ⟨tt, htt, by rw [← he]⟩
    · rw [show (Database.mk (setTableRows s.tables (t - 1).toNat (eraseA tt.rows r))
          s.next_row_key frm').tables
          = setTableRows s.tables (t - 1).toNat (eraseA tt.rows r) from rfl,
        setTableRows_get_ne s.tables (t - 1).toNat i (eraseA tt.rows r) hi] at h'
      exact ⟨tt', h', rfl⟩
  · intro i rr rec h'
    by_cases hi : i = (t - 1).toNat
    · subst hi
      rw [rowAtIdx_set_self s.tables s.next_row_key frm' (t - 1).toNat tt
        (eraseA tt.rows r) htt rr] at h'
      obtain ⟨_, hl⟩ := lookupA_eraseA_some tt.rows r rr rec h'
      rw [rowAtIdx_by_table s (t - 1).toNat tt htt rr]
      exact hl
    · rw [rowAtIdx_set_ne s.tables s.next_row_key frm' (t - 1).toNat i
        (eraseA tt.rows r) hi s.next_row_key s.foreign_references_map rr] at h'
      rwa [rowAtIdx_congr ⟨s.tables, s.next_row_key, s.foreign_references_map⟩ s rfl
        i rr] at h'
  · unfold measureD
    dsimp only
    omega

theorem drop_list_go_post (f : Database → Int → Int → OpResult)
    (hf : ∀ s t r res s', f s t r = some (res, s') →
      DropPost s s' ∧
      (validate_table_id s.tables t = true →
        rowAtIdx s (t - 1).toNat r ≠ none → rowAtIdx s' (t - 1).toNat r = none)) :
    ∀ (E : List (Int × Int)) (s s' : Database), drop_list_go f s E = some s' →
      DropPost s s' ∧
      ∀ p ∈ E, validate_table_id s.tables p.1 = true →
        rowAtIdx s' (p.1 - 1).toNat p.2 = none := by
  intro E
  induction E with
  | nil =>
      intro s s' h
      rw [drop_list_go_nil] at h
      injection h with he
      subst he
      exact ⟨DropPost_refl s, by simp⟩
  | cons p rest ih =>
      obtain ⟨t, r⟩ := p
      intro s s' h
      rw [drop_list_go_cons] at h
      split at h
      · cases h
      next res s'' hcall =>
        obtain ⟨hdp1, hrm⟩ := hf s t r res s'' hcall
        obtain ⟨hdp2, hall⟩ := ih s'' s' h
        refine ⟨DropPost_trans hdp1 hdp2, ?_⟩
        intro q hq hvalq
        rcases List.mem_cons.mp hq with rfl | hq'
        · by_cases hpres : rowAtIdx s (t - 1).toNat r = none
          · exact Shrink_absent hdp2.1 (Shrink_absent hdp1.1 hpres)

          · exact Shrink_absent hdp2.1 (hrm hvalq hpres)
        · refine hall q hq' ?_
          rw [validate_table_id_congr s''.tables s.tables hdp1.1.1 q.1]
          exact hvalq

theorem drop_helper_fuel_post :
    ∀ (fuel : Nat) (s : Database) (t r : Int) (res : Except ErrCode Resp) (s' : Database),
      drop_helper_fuel fuel s t r = some (res, s') →
      DropPost s s' ∧
      (validate_table_id s.tables t = true →
        rowAtIdx s (t - 1).toNat r ≠ none → rowAtIdx s' (t - 1).toNat r = none) ∧
      (res = Except.ok Resp.Drop →
        rowAtIdx s (t - 1).toNat r ≠ none ∧ rowAtIdx s' (t - 1).toNat r = none) ∧
      (∀ e, res = Except.error e → s' = s) := by
  intro fuel
  induction fuel with
  | zero => intro s t r res s' h; cases h
  | succ n ih =>
      intro s t r res s' h
      rw [drop_helper_fuel_succ] at h
      unfold drop_helper_step at h
      split at h
      next hval =>
        simp only [Option.some.injEq, Prod.mk.injEq] at h
        obtain ⟨h1, h2⟩ := h
        subst h2
        refine ⟨DropPost_refl s, ?_, ?_, fun e _ => rfl⟩
        · intro hvt
          rw [hvt] at hval
          simp at hval
        · intro hok
          rw [← h1] at hok
          exact Except.noConfusion hok
      next hval =>
        split at h
        · cases h
        next tt htt =>
          split at h
          next hrow_none =>
            simp only [Option.some.injEq, Prod.mk.injEq] at h
            obtain ⟨h1, h2⟩ := h
            subst h2
            have habs : rowAtIdx s (t - 1).toNat r = none := by
              rw [rowAtIdx_by_table s (t - 1).toNat tt htt r]
              exact hrow_none
            refine ⟨DropPost_refl s, ?_, ?_, fun e _ => rfl⟩
            · intro _ hne; exact absurd habs hne
            · intro hok; rw [← h1] at hok; exact Except.noConfusion hok
          next row hrow =>
            dsimp only at h
            have hpres : rowAtIdx s (t - 1).toNat r ≠ none := by
              rw [rowAtIdx_by_table s (t - 1).toNat tt htt r, hrow]
              exact fun hc => Option.noConfusion hc
            split at h
            next hfrm_none =>
              simp only [Option.some.injEq, Prod.mk.injEq] at h
              obtain ⟨h1, h2⟩ := h
              subst h2
              have habs1 : rowAtIdx ⟨setTableRows s.tables (t - 1).toNat
                  (eraseA tt.rows r), s.next_row_key, s.foreign_references_map⟩
                  (t - 1).toNat r = none := by
                rw [rowAtIdx_set_self s.tables s.next_row_key s.foreign_references_map
                  (t - 1).toNat tt (eraseA tt.rows r) htt r]
                exact lookupA_eraseA_self tt.rows r
              have hshr := Shrink_removal s t r tt htt s.foreign_references_map
                (fun k E hE => hE) (le_refl _)
              refine ⟨⟨hshr, ?_, ?_⟩, fun _ _ => habs1, fun _ => ⟨hpres, habs1⟩,
                fun e he => ?_⟩
              · intro k E hE hnone
                rw [show (Database.mk (setTableRows s.tables (t - 1).toNat
                    (eraseA tt.rows r)) s.next_row_key
                    s.foreign_references_map).foreign_references_map
                    = s.foreign_references_map from rfl] at hnone
                rw [hE] at hnone
                cases hnone
              · intro i rr hpres' habs'
                by_cases hi : i = (t - 1).toNat
                · subst hi
                  rw [rowAtIdx_set_self s.tables s.next_row_key
                    s.foreign_references_map (t - 1).toNat tt
                    (eraseA tt.rows r) htt rr] at habs'
                  by_cases hrr : rr = r
                  · subst hrr
                    exact hfrm_none
                  · rw [lookupA_eraseA_ne tt.rows r rr hrr] at habs'
                    rw [rowAtIdx_by_table s (t - 1).toNat tt htt rr] at hpres'
                    exact absurd habs' hpres'
                · rw [rowAtIdx_set_ne s.tables s.next_row_key
                    s.foreign_references_map (t - 1).toNat i (eraseA tt.rows r) hi
                    s.next_row_key s.foreign_references_map rr,
                    rowAtIdx_congr ⟨s.tables, s.next_row_key,
                      s.foreign_references_map⟩ s rfl i rr] at habs'
                  exact absurd habs' hpres'
              · rw [← h1] at he; exact Except.noConfusion he
            next E hfrmE =>
              split at h
              · cases h
              next db3 hgo =>
                simp only [Option.some.injEq, Prod.mk.injEq] at h
                obtain ⟨h1, h2⟩ := h
                subst h2
                have hshr0 : Shrink s ⟨setTableRows s.tables (t - 1).toNat
                    (eraseA tt.rows r), s.next_row_key,
                    eraseA s.foreign_references_map r⟩ :=
                  Shrink_removal s t r tt htt (eraseA s.foreign_references_map r)
                    (fun k E' hE' =>
                      (lookupA_eraseA_some s.foreign_references_map r k E' hE').2)
                    (eraseA_length_le s.foreign_references_map r)
                obtain ⟨hdpL, hallL⟩ := drop_list_go_post (drop_helper_fuel n)
                  (fun s1 t1 r1 res1 s1' hc =>
                    ⟨(ih s1 t1 r1 res1 s1' hc).1, (ih s1 t1 r1 res1 s1' hc).2.1⟩)
                  E ⟨setTableRows s.tables (t - 1).toNat (eraseA tt.rows r),
                    s.next_row_key, eraseA s.foreign_references_map r⟩ db3 hgo
                have hShr : Shrink s db3 := Shrink_trans hshr0 hdpL.1
                have habs2 : rowAtIdx ⟨setTableRows s.tables (t - 1).toNat
                    (eraseA tt.rows r), s.next_row_key,
                    eraseA s.foreign_references_map r⟩ (t - 1).toNat r = none := by
                  rw [rowAtIdx_set_self s.tables s.next_row_key
                    (eraseA s.foreign_references_map r) (t - 1).toNat tt
                    (eraseA tt.rows r) htt r]
                  exact lookupA_eraseA_self tt.rows r
                have hfrm2 : lookupA (eraseA s.foreign_references_map r) r = none :=
                  lookupA_eraseA_self s.foreign_references_map r
                refine ⟨⟨hShr, ?_, ?_⟩, fun _ _ => Shrink_absent hdpL.1 habs2,
                  fun _ => ⟨hpres, Shrink_absent hdpL.1 habs2⟩, fun e he => ?_⟩
                · intro k Ek hEk hnone p hp hvalp
                  by_cases hk : k = r
                  · subst hk
                    rw [hfrmE] at hEk
                    injection hEk with he
                    subst he
                    refine hallL p hp ?_
                    rw [validate_table_id_congr _ s.tables hshr0.1 p.1]
                    exact hvalp
                  · have hdb2k : lookupA (eraseA s.foreign_references_map r) k
                        = some Ek := by
                      rw [lookupA_eraseA_ne s.foreign_references_map r k hk]
                      exact hEk
                    refine hdpL.2.1 k Ek hdb2k hnone p hp ?_
                    rw [validate_table_id_congr _ s.tables hshr0.1 p.1]
                    exact hvalp
                · intro i rr hpres' habs'
                  by_cases hmid : rowAtIdx ⟨setTableRows s.tables (t - 1).toNat
                      (eraseA tt.rows r), s.next_row_key,
                      eraseA s.foreign_references_map r⟩ i rr = none
                  · by_cases hi : i = (t - 1).toNat
                    · subst hi
                      rw [rowAtIdx_set_self s.tables s.next_row_key
                        (eraseA s.foreign_references_map r) (t - 1).toNat tt
                        (eraseA tt.rows r) htt rr] at hmid
                      by_cases hrr : rr = r
                      · subst hrr
                        exact Shrink_frm_absent hdpL.1 hfrm2
                      · rw [lookupA_eraseA_ne tt.rows r rr hrr] at hmid
                        rw [rowAtIdx_by_table s (t - 1).toNat tt htt rr] at hpres'
                        exact absurd hmid hpres'
                    · rw [rowAtIdx_set_ne s.tables s.next_row_key
                        (eraseA s.foreign_references_map r) (t - 1).toNat i
                        (eraseA tt.rows r) hi s.next_row_key
                        s.foreign_references_map rr,
                        rowAtIdx_congr ⟨s.tables, s.next_row_key,
                          s.foreign_references_map⟩ s rfl i rr] at hmid
                      exact absurd hmid hpres'
                  · exact hdpL.2.2 i rr hmid habs'
                · rw [← h1] at he; exact Except.noConfusion he

/-! ### Reverse-reference map characterizations -/

theorem addFRM_preserve :
    ∀ (refs : List Int) (m : FRM) (rid tid k : Int) (E : List (Int × Int)) (p : Int × Int),
      lookupA m k = some E → p ∈ E →
      ∃ E', lookupA (add_to_foreign_reference_map m refs rid tid) k = some E' ∧ p ∈ E' := by
  intro refs
  induction refs with
  | nil => exact fun m rid tid k E p hE hp => ⟨E, hE, hp⟩
  | cons k0 rest ih =>
      intro m rid tid k E p hE hp
      unfold add_to_foreign_reference_map
      dsimp only
      by_cases hk : k = k0
      · subst hk
        have hred : (match lookupA m k with
            | some e => e
            | none => ([] : List (Int × Int))) = E := by rw [hE]
        rw [hred]
        exact ih (insertA m k (insertSetP E (tid, rid))) rid tid k
          (insertSetP E (tid, rid)) p (lookupA_insertA_self m k _)
          ((mem_insertSetP E (tid, rid) p).mpr (Or.inr hp))
      · refine ih _ rid tid k E p ?_ hp
        rw [lookupA_insertA_ne m k0 k _ hk]
        exact hE

theorem addFRM_mem :
    ∀ (refs : List Int) (m : FRM) (rid tid k : Int), k ∈ refs →
      ∃ E, lookupA (add_to_foreign_reference_map m refs rid tid) k = some E ∧
        (tid, rid) ∈ E := by
  intro refs
  induction refs with
  | nil => intro m rid tid k hk; cases hk
  | cons k0 rest ih =>
      intro m rid tid k hk
      unfold add_to_foreign_reference_map
      dsimp only
      by_cases hmem : k ∈ rest
      · exact ih _ rid tid k hmem
      · have hk0 : k = k0 := by
          rcases List.mem_cons.mp hk with h | h
          · exact h
          · exact absurd h hmem
        subst hk0
        refine addFRM_preserve rest _ rid tid k _ (tid, rid)
          (lookupA_insertA_self m k _) ?_
        exact (mem_insertSetP _ (tid, rid) (tid, rid)).mpr (Or.inl rfl)

theorem addFRM_unchanged :
    ∀ (refs : List Int) (m : FRM) (rid tid k : Int), k ∉ refs →
      lookupA (add_to_foreign_reference_map m refs rid tid) k = lookupA m k := by
  intro refs
  induction refs with
  | nil => intro m rid tid k _; rfl
  | cons k0 rest ih =>
      intro m rid tid k hk
      unfold add_to_foreign_reference_map
      dsimp only
      have hk0 : k ≠ k0 := fun h => hk (h ▸ List.mem_cons_self k0 rest)
      have hrest : k ∉ rest := fun h => hk (List.mem_cons_of_mem k0 h)
      rw [ih _ rid tid k hrest, lookupA_insertA_ne m k0 k _ hk0]

theorem addFRM_new :
    ∀ (refs : List Int) (m : FRM) (rid tid k : Int) (E' : List (Int × Int)) (p : Int × Int),
      lookupA (add_to_foreign_reference_map m refs rid tid) k = some E' → p ∈ E' →
      (p = (tid, rid) ∧ k ∈ refs) ∨ (∃ E, lookupA m k = some E ∧ p ∈ E) := by
  intro refs
  induction refs with
  | nil => exact fun m rid tid k E' p h hp => Or.inr ⟨E', h, hp⟩
  | cons k0 rest ih =>
      intro m rid tid k E' p h hp
      unfold add_to_foreign_reference_map at h
      dsimp only at h
      rcases ih _ rid tid k E' p h hp with ⟨rfl, hmem⟩ | ⟨E₁, hE₁, hp₁⟩
      · exact Or.inl ⟨rfl, List.mem_cons_of_mem k0 hmem⟩
      · by_cases hk : k = k0
        · subst hk
          rw [lookupA_insertA_self] at hE₁
          injection hE₁ with he
          subst he
          rcases (mem_insertSetP _ (tid, rid) p).mp hp₁ with rfl | hpe
          · exact Or.inl ⟨rfl, List.mem_cons_self k rest⟩
          · cases hlm : lookupA m k with
            | none => rw [hlm] at hpe; cases hpe
            | some e =>
                rw [hlm] at hpe
                exact Or.inr ⟨e, rfl, hpe⟩
        · rw [lookupA_insertA_ne m k0 k _ hk] at hE₁
          exact Or.inr ⟨E₁, hE₁, hp₁⟩

theorem removeFRM_some :
    ∀ (refs : List Int) (m : FRM) (rid tid : Int),
      (∀ k ∈ refs, ∃ E, lookupA m k = some E) →
      ∃ m', remove_from_foreign_reference_map m refs rid tid = some m' := by
  intro refs
  induction refs with
  | nil => exact fun m rid tid _ => ⟨m, rfl⟩
  | cons k0 rest ih =>
      intro m rid tid hall
      obtain ⟨E0, hE0⟩ := hall k0 (List.mem_cons_self k0 rest)
      unfold remove_from_foreign_reference_map
      rw [hE0]
      refine ih _ rid tid ?_
      intro k hk
      by_cases hkk : k = k0
      · subst hkk
        exact ⟨removeSetP E0 (tid, rid), lookupA_insertA_self m k _⟩
      · rw [lookupA_insertA_ne m k0 k _ hkk]
        exact hall k (List.mem_cons_of_mem k0 hk)

theorem removeFRM_char :
    ∀ (refs : List Int) (m : FRM) (rid tid : Int) (m' : FRM),
      remove_from_foreign_reference_map m refs rid tid = some m' →
      ∀ k : Int,
        (k ∉ refs → lookupA m' k = lookupA m k) ∧
        (∀ E', lookupA m' k = some E' → ∀ p ∈ E',
          ∃ E, lookupA m k = some E ∧ p ∈ E ∧ (k ∈ refs → p ≠ (tid, rid))) ∧
        (∀ E p, lookupA m k = some E → p ∈ E → p ≠ (tid, rid) →
          ∃ E', lookupA m' k = some E' ∧ p ∈ E') ∧
        (lookupA m' k = none ↔ lookupA m k = none) := by
  intro refs
  induction refs with
  | nil =>
      intro m rid tid m' h k
      injection h with he
      subst he
      refine ⟨fun _ => rfl, ?_, ?_, Iff.rfl⟩
      · intro E' hE' p hp
        exact ⟨E', hE', hp, fun hk => absurd hk (List.not_mem_nil k)⟩
      · intro E p hE hp _
        exact ⟨E, hE, hp⟩
  | cons k0 rest ih =>
      intro m rid tid m' h k
      unfold remove_from_foreign_reference_map at h
      split at h
      · cases h
      next E0 hE0 =>
        have IH := ih _ rid tid m' h
        by_cases hk : k = k0
        · subst hk
          have hm1 : lookupA (insertA m k (removeSetP E0 (tid, rid))) k
              = some (removeSetP E0 (tid, rid)) := lookupA_insertA_self m k _
          refine ⟨?_, ?_, ?_, ?_⟩
          · intro hnot
            exact absurd (List.mem_cons_self k rest) hnot
          · intro E' hE' p hp
            obtain ⟨E₁, hE₁, hp₁, _⟩ := (IH k).2.1 E' hE' p hp
            rw [hm1] at hE₁
            injection hE₁ with he
            subst he
            obtain ⟨hpe, hpne⟩ := (mem_removeSetP E0 (tid, rid) p).mp hp₁
            exact ⟨E0, hE0, hpe, fun _ => hpne⟩
          · intro E p hE hp hne
            rw [hE0] at hE
            injection hE with he
            subst he
            exact (IH k).2.2.1 (removeSetP E0 (tid, rid)) p hm1
              ((mem_removeSetP E0 (tid, rid) p).mpr ⟨hp, hne⟩) hne
          · rw [(IH k).2.2.2, hm1, hE0]
            simp
        · have hm1k : lookupA (insertA m k0 (removeSetP E0 (tid, rid))) k
              = lookupA m k := lookupA_insertA_ne m k0 k _ hk
          refine ⟨?_, ?_, ?_, ?_⟩
          · intro hnot
            have hrest : k ∉ rest := fun hr => hnot (List.mem_cons_of_mem k0 hr)
            rw [(IH k).1 hrest, hm1k]
          · intro E' hE' p hp
            obtain ⟨E₁, hE₁, hp₁, hcond⟩ := (IH k).2.1 E' hE' p hp
            rw [hm1k] at hE₁
            refine ⟨E₁, hE₁, hp₁, ?_⟩
            intro hmem
            rcases List.mem_cons.mp hmem with he | hr
            · exact absurd he hk
            · exact hcond hr
          · intro E p hE hp hne
            refine (IH k).2.2.1 E p ?_ hp hne
            rw [hm1k]
            exact hE
          · rw [(IH k).2.2.2, hm1k]

/-! ### Handler state characterizations -/

theorem validate_values_go_error_cases (db : Database) :
    ∀ (vals : List Value) (cols : List ColumnMetadata) (e : ErrCode),
      validate_values_go db vals cols = some (Except.error e) →
      e = ErrCode.BAD_VALUE ∨ e = ErrCode.BAD_FOREIGN := by
  intro vals
  induction vals with
  | nil => intro cols e h; simp [validate_values_go] at h
  | cons v vs ih =>
      intro cols e h
      cases cols with
      | nil => simp [validate_values_go] at h
      | cons c cs =>
          cases v <;> simp only [validate_values_go] at h
          case Null =>
            split at h
            · simp at h; subst h; simp
            · exact ih cs e h
          case Integer =>
            split at h
            · simp at h; subst h; simp
            · exact ih cs e h
          case Float =>
            split at h
            · simp at h; subst h; simp
            · exact ih cs e h
          case Text =>
            split at h
            · simp at h; subst h; simp
            · exact ih cs e h
          case Foreign =>
            split at h
            · simp at h; subst h; simp
            · split at h
              · split at h
                · simp at h
                · split at h
                  · simp at h
                  · split at h
                    · simp at h; subst h; simp
                    · exact ih cs e h
              · exact ih cs e h

theorem validate_values_error_cases (db : Database) (vals : List Value)
    (cols : List ColumnMetadata) (e : ErrCode)
    (h : validate_values_against_schema vals cols db = some (Except.error e)) :
    e = ErrCode.BAD_ROW ∨ e = ErrCode.BAD_VALUE ∨ e = ErrCode.BAD_FOREIGN := by
  unfold validate_values_against_schema at h
  split at h
  · simp at h; subst h; simp
  · exact Or.inr (validate_values_go_error_cases db vals cols e h)

theorem handle_update_ok_char (db : Database) (t r v : Int) (vals : List Value)
    (resp : Resp) (db' : Database)
    (h : handle_update db t r v vals = some (Except.ok resp, db')) :
    ∃ tt target_row frm1,
      validate_table_id db.tables t = true ∧
      db.tables[(t - 1).toNat]? = some tt ∧
      (∃ b, validate_values_against_schema vals tt.table_schema.t_cols db
        = some (Except.ok b)) ∧
      lookupA tt.rows r = some target_row ∧
      (target_row.version = v ∨ v = 0) ∧
      remove_from_foreign_reference_map db.foreign_references_map
        (get_all_referenced_rows target_row.data) r t = some frm1 ∧
      resp = Resp.Update (v + 1) ∧
      db' = ⟨setTableRows db.tables (t - 1).toNat (insertA tt.rows r ⟨v + 1, vals⟩),
        db.next_row_key,
        add_to_foreign_reference_map frm1 (get_all_referenced_rows vals) r t⟩ := by
  unfold handle_update at h
  split at h
  · simp at h
  next hval =>
    split at h
    · simp at h
    next tt htt =>
      split at h
      · simp at h
      · simp at h
      next b hvv =>
        split at h
        · simp at h
        next target_row hrow =>
          split at h
          · simp at h
          next hver =>
            dsimp only at h
            split at h
            · simp at h
            next frm1 hfrm =>
              simp only [Option.some.injEq, Prod.mk.injEq] at h
              obtain ⟨h1, h2⟩ := h
              refine ⟨tt, target_row, frm1, ?_, htt, ⟨b, hvv⟩, hrow, ?_, hfrm, ?_, ?_⟩
              · simpa using hval
              · rcases Decidable.em (target_row.version = v) with hv | hv
                · exact Or.inl hv
                · right
                  by_contra hz
                  exact hver ⟨hv, hz⟩
              · exact (Except.ok.inj h1).symm
              · exact h2.symm

theorem handle_get_found (db : Database) (t r : Int) (tt : DatabaseTable)
    (row : DatabaseTableRow)
    (hv : validate_table_id db.tables t = true)
    (ht : db.tables[(t - 1).toNat]? = some tt)
    (hr : lookupA tt.rows r = some row) :
    handle_get db t r = some (Except.ok (Resp.Get row.version row.data), db) := by
  unfold handle_get
  rw [hv, if_neg (by simp), ht]
  dsimp only
  rw [hr]

theorem handle_get_missing (db : Database) (t r : Int) (tt : DatabaseTable)
    (hv : validate_table_id db.tables t = true)
    (ht : db.tables[(t - 1).toNat]? = some tt)
    (hr : lookupA tt.rows r = none) :
    handle_get db t r = some (Except.error ErrCode.NOT_FOUND, db) := by
  unfold handle_get
  rw [hv, if_neg (by simp), ht]
  dsimp only
  rw [hr]

theorem handle_insert_ok_char (db : Database) (t : Int) (vals : List Value)
    (resp : Resp) (db' : Database)
    (h : handle_insert db t vals = some (Except.ok resp, db')) :
    ∃ tt b, validate_table_id db.tables t = true ∧
      db.tables[(t - 1).toNat]? = some tt ∧
      validate_values_against_schema vals tt.table_schema.t_cols db
        = some (Except.ok b) ∧
      resp = Resp.Insert db.next_row_key 1 ∧
      db' = ⟨setTableRows db.tables (t - 1).toNat
          (insertA tt.rows db.next_row_key ⟨1, vals⟩),
        db.next_row_key + 1,
        add_to_foreign_reference_map db.foreign_references_map
          (get_all_referenced_rows vals) db.next_row_key t⟩ := by
  unfold handle_insert at h
  split at h
  · simp at h
  next hval =>
    split at h
    · cases h
    next tt htt =>
      split at h
      · cases h
      · simp at h
      next b hvv =>
        dsimp only at h
        simp only [Option.some.injEq, Prod.mk.injEq] at h
        obtain ⟨h1, h2⟩ := h
        exact ⟨tt, b, by simpa using hval, htt, hvv,
          (Except.ok.inj h1).symm, h2.symm⟩

theorem handle_insert_err_state (db : Database) (t : Int) (vals : List Value)
    (e : ErrCode) (db' : Database)
    (h : handle_insert db t vals = some (Except.error e, db')) : db' = db := by
  unfold handle_insert at h
  split at h
  · simp only [Option.some.injEq, Prod.mk.injEq] at h
    exact h.2.symm
  · split at h
    · cases h
    · split at h
      · cases h
      · simp only [Option.some.injEq, Prod.mk.injEq] at h
        exact h.2.symm
      · dsimp only at h
        simp at h

theorem handle_update_err_state (db : Database) (t r v : Int) (vals : List Value)
    (e : ErrCode) (db' : Database)
    (h : handle_update db t r v vals = some (Except.error e, db')) : db' = db := by
  unfold handle_update at h
  split at h
  · simp only [Option.some.injEq, Prod.mk.injEq] at h
    exact h.2.symm
  · split at h
    · cases h
    · split at h
      · cases h
      · simp only [Option.some.injEq, Prod.mk.injEq] at h
        exact h.2.symm
      · split at h
        · simp only [Option.some.injEq, Prod.mk.injEq] at h
          exact h.2.symm
        · split at h
          · simp only [Option.some.injEq, Prod.mk.injEq] at h
            exact h.2.symm
          · dsimp only at h
            split at h
            · cases h
            · simp at h

theorem handle_get_state (db : Database) (t r : Int)
    (res : Except ErrCode Resp) (db' : Database)
    (h : handle_get db t r = some (res, db')) : db' = db := by
  unfold handle_get at h
  split at h
  · simp only [Option.some.injEq, Prod.mk.injEq] at h
    exact h.2.symm
  · split at h
    · cases h
    · split at h <;>
        (simp only [Option.some.injEq, Prod.mk.injEq] at h; exact h.2.symm)

theorem handle_query_state (db : Database) (t c op : Int) (o : Value)
    (res : Except ErrCode Resp) (db' : Database)
    (h : handle_query db t c op o = some (res, db')) : db' = db := by
  unfold handle_query at h
  split at h
  · cases h
  · simp only [Option.some.injEq, Prod.mk.injEq] at h
    exact h.2.symm

/-! ### The invariant: initialization and preservation -/

theorem Database_new_rowAtIdx (ts : List TableMetadata) (i : Nat) (r : Int) :
    rowAtIdx (Database.new ts) i r = none := by
  unfold rowAtIdx Database.new
  dsimp only
  rw [List.getElem?_map]
  cases hts : ts[i]? with
  | none => rfl
  | some tm => rfl

theorem Inv_init (ts : List TableMetadata) (hwf : WFSchemas ts) :
    Inv (Database.new ts) := by
  refine ⟨?_, ⟨le_refl 1, ?_⟩, ?_, ?_, ?_, ?_⟩
  · intro i tt htt c hc hcf
    unfold Database.new at htt
    dsimp only at htt
    rw [List.getElem?_map] at htt
    cases hts : ts[i]? with
    | none => rw [hts] at htt; cases htt
    | some tm =>
        rw [hts] at htt
        injection htt with he
        have htm : tm ∈ ts := List.getElem?_mem hts
        have hc' : c ∈ tm.t_cols := by
          rw [← he] at hc
          exact hc
        have := hwf tm htm c hc' hcf
        simpa [Database.new] using this
  · intro i r rec hrec
    rw [Database_new_rowAtIdx] at hrec
    cases hrec
  · intro i j r reci recj hi _
    rw [Database_new_rowAtIdx] at hi
    cases hi
  · intro k E hE
    cases hE
  · intro i r rec hrec
    rw [Database_new_rowAtIdx] at hrec
    cases hrec
  · intro k E hE
    cases hE

theorem rowAtIdx_set_ne_db (db : Database) (i j : Nat)
    (rows' : List (Int × DatabaseTableRow)) (nk : Int) (frm : FRM)
    (h : j ≠ i) (r : Int) :
    rowAtIdx ⟨setTableRows db.tables i rows', nk, frm⟩ j r = rowAtIdx db j r := by
  unfold rowAtIdx
  dsimp only
  rw [setTableRows_get_ne db.tables i j rows' h]

theorem WFS_set (db : Database) (idx : Nat) (tt : DatabaseTable)
    (rows' : List (Int × DatabaseTableRow)) (nk' : Int) (frm' : FRM)
    (htt : db.tables[idx]? = some tt) (hwfs : WFS db) :
    WFS ⟨setTableRows db.tables idx rows', nk', frm'⟩ := by
  intro i tt2 htt2 c hc hcf
  rw [show (Database.mk (setTableRows db.tables idx rows') nk' frm').tables
      = setTableRows db.tables idx rows' from rfl] at htt2 ⊢
  rw [setTableRows_length]
  by_cases hi : i = idx
  · subst hi
    rw [setTableRows_get_self db.tables i tt rows' htt] at htt2
    injection htt2 with he
    have hc' : c ∈ tt.table_schema.t_cols := by
      rw [← he] at hc
      exact hc
    exact hwfs i tt htt c hc' hcf
  · rw [setTableRows_get_ne db.tables idx i rows' hi] at htt2
    exact hwfs i tt2 htt2 c hc hcf

theorem Inv_insert (db : Database) (t : Int) (vals : List Value)
    (res : Except ErrCode Resp) (db' : Database) (hinv : Inv db)
    (h : handle_insert db t vals = some (res, db')) : Inv db' := by
  obtain ⟨hwfs, ⟨hnk1, hbound⟩, huniq, hfpb, hcomp, hsnd⟩ := hinv
  cases res with
  | error e =>
      rw [handle_insert_err_state db t vals e db' h]
      exact ⟨hwfs, ⟨hnk1, hbound⟩, huniq, hfpb, hcomp, hsnd⟩
  | ok resp =>
      obtain ⟨tt, b, hval, htt, hvv, hresp, hdb'⟩ := handle_insert_ok_char db t vals resp db' h
      have hvt : 1 ≤ t ∧ t ≤ (db.tables.length : Int) := by
        unfold validate_table_id at hval
        exact of_decide_eq_true hval
      have hidxInt : ((t - 1).toNat : Int) = t - 1 := Int.toNat_of_nonneg (by omega)
      subst hdb'
      refine ⟨WFS_set db (t - 1).toNat tt _ _ _ htt hwfs, ⟨?_, ?_⟩, ?_, ?_, ?_, ?_⟩
      · dsimp only
        omega
      · intro i r rec hrec
        dsimp only
        by_cases hi : i = (t - 1).toNat
        · subst hi
          rw [rowAtIdx_set_self db.tables _ _ _ tt _ htt r] at hrec
          by_cases hr : r = db.next_row_key
          · subst hr
            omega
          · rw [lookupA_insertA_ne tt.rows db.next_row_key r _ hr] at hrec
            have hrec' : rowAtIdx db (t - 1).toNat r = some rec := by
              rw [rowAtIdx_by_table db (t - 1).toNat tt htt r]
              exact hrec
            have := hbound (t - 1).toNat r rec hrec'
            omega
        · rw [rowAtIdx_set_ne_db db (t - 1).toNat i _ _ _ hi r] at hrec
          have := hbound i r rec hrec
          omega
      · intro i j r reci recj hi hj
        by_cases hr : r = db.next_row_key
        · subst hr
          have hkey : ∀ (i' : Nat) (reci' : DatabaseTableRow),
              rowAtIdx ⟨setTableRows db.tables (t - 1).toNat
                (insertA tt.rows db.next_row_key ⟨1, vals⟩),
                db.next_row_key + 1,
                add_to_foreign_reference_map db.foreign_references_map
                  (get_all_referenced_rows vals) db.next_row_key t⟩ i'
                db.next_row_key = some reci' → i' = (t - 1).toNat := by
            intro i' reci' hrec
            by_cases hii : i' = (t - 1).toNat
            · exact hii
            · rw [rowAtIdx_set_ne_db db (t - 1).toNat i' _ _ _ hii db.next_row_key] at hrec
              have := hbound i' db.next_row_key reci' hrec
              omega
          rw [hkey i reci hi, hkey j recj hj]
        · have hred : ∀ (i' : Nat) (reci' : DatabaseTableRow),
              rowAtIdx ⟨setTableRows db.tables (t - 1).toNat
                (insertA tt.rows db.next_row_key ⟨1, vals⟩),
                db.next_row_key + 1,
                add_to_foreign_reference_map db.foreign_references_map
                  (get_all_referenced_rows vals) db.next_row_key t⟩ i' r
                = some reci' → rowAtIdx db i' r = some reci' := by
            intro i' reci' hrec
            by_cases hii : i' = (t - 1).toNat
            · subst hii
              rw [rowAtIdx_set_self db.tables _ _ _ tt _ htt r] at hrec
              rw [lookupA_insertA_ne tt.rows db.next_row_key r _ hr] at hrec
              rw [rowAtIdx_by_table db (t - 1).toNat tt htt r]
              exact hrec
            · rw [rowAtIdx_set_ne_db db (t - 1).toNat i' _ _ _ hii r] at hrec
              exact hrec
          exact huniq i j r reci recj (hred i reci hi) (hred j recj hj)
      · intro k E hE p hp
        rcases addFRM_new (get_all_referenced_rows vals) db.foreign_references_map
            db.next_row_key t k E p hE hp with ⟨rfl, hkref⟩ | ⟨E₀, hE₀, hp₀⟩
        · dsimp only
          rw [setTableRows_length]
          exact ⟨by omega, by omega, by omega⟩
        · have := hfpb k E₀ hE₀ p hp₀
          dsimp only
          rw [setTableRows_length]
          exact ⟨this.1, this.2.1, by omega⟩
      · intro i r rec hrec k hk
        by_cases hi : i = (t - 1).toNat
        · subst hi
          rw [rowAtIdx_set_self db.tables _ _ _ tt _ htt r] at hrec
          by_cases hr : r = db.next_row_key
          · subst hr
            rw [lookupA_insertA_self] at hrec
            injection hrec with he
            subst he
            obtain ⟨E, hE, hmem⟩ := addFRM_mem (get_all_referenced_rows vals)
              db.foreign_references_map db.next_row_key t k hk
            refine ⟨E, hE, ?_⟩
            have hti : ((t - 1).toNat : Int) + 1 = t := by omega
            rw [hti]
            exact hmem
          · rw [lookupA_insertA_ne tt.rows db.next_row_key r _ hr] at hrec
            have hrec' : rowAtIdx db (t - 1).toNat r = some rec := by
              rw [rowAtIdx_by_table db (t - 1).toNat tt htt r]
              exact hrec
            obtain ⟨E, hE, hmem⟩ := hcomp (t - 1).toNat r rec hrec' k hk
            exact addFRM_preserve (get_all_referenced_rows vals)
              db.foreign_references_map db.next_row_key t k E _ hE hmem
        · rw [rowAtIdx_set_ne_db db (t - 1).toNat i _ _ _ hi r] at hrec
          obtain ⟨E, hE, hmem⟩ := hcomp i r rec hrec k hk
          exact addFRM_preserve (get_all_referenced_rows vals)
            db.foreign_references_map db.next_row_key t k E _ hE hmem
      · intro k E hE p hp rec hrec
        rcases addFRM_new (get_all_referenced_rows vals) db.foreign_references_map
            db.next_row_key t k E p hE hp with ⟨rfl, hkref⟩ | ⟨E₀, hE₀, hp₀⟩
        · rw [rowAtIdx_set_self db.tables _ _ _ tt _ htt _] at hrec
          rw [lookupA_insertA_self] at hrec
          injection hrec with he
          subst he
          exact hkref
        · have hbnd := hfpb k E₀ hE₀ p hp₀
          by_cases hpi : (p.1 - 1).toNat = (t - 1).toNat
          · rw [hpi, rowAtIdx_set_self db.tables _ _ _ tt _ htt p.2] at hrec
            have hp2 : p.2 ≠ db.next_row_key := by omega
            rw [lookupA_insertA_ne tt.rows db.next_row_key p.2 _ hp2] at hrec
            have hrec' : rowAtIdx db (p.1 - 1).toNat p.2 = some rec := by
              rw [hpi, rowAtIdx_by_table db (t - 1).toNat tt htt p.2]
              exact hrec
            exact hsnd k E₀ hE₀ p hp₀ rec hrec'
          · rw [rowAtIdx_set_ne_db db (t - 1).toNat (p.1 - 1).toNat _ _ _ hpi p.2] at hrec
            exact hsnd k E₀ hE₀ p hp₀ rec hrec

theorem Inv_update (db : Database) (t r v : Int) (vals : List Value)
    (res : Except ErrCode Resp) (db' : Database) (hinv : Inv db)
    (h : handle_update db t r v vals = some (res, db')) : Inv db' := by
  obtain ⟨hwfs, ⟨hnk1, hbound⟩, huniq, hfpb, hcomp, hsnd⟩ := hinv
  cases res with
  | error e =>
      rw [handle_update_err_state db t r v vals e db' h]
      exact ⟨hwfs, ⟨hnk1, hbound⟩, huniq, hfpb, hcomp, hsnd⟩
  | ok resp =>
      obtain ⟨tt, target_row, frm1, hval, htt, _, hrow, _, hfrm1, hresp, hdb'⟩ :=
        handle_update_ok_char db t r v vals resp db' h
      have hvt : 1 ≤ t ∧ t ≤ (db.tables.length : Int) := by
        unfold validate_table_id at hval
        exact of_decide_eq_true hval
      have hidxInt : ((t - 1).toNat : Int) = t - 1 := Int.toNat_of_nonneg (by omega)
      have hrowAt : rowAtIdx db (t - 1).toNat r = some target_row := by
        rw [rowAtIdx_by_table db (t - 1).toNat tt htt r]
        exact hrow
      have hrbnd := hbound (t - 1).toNat r target_row hrowAt
      have hRM := removeFRM_char (get_all_referenced_rows target_row.data)
        db.foreign_references_map r t frm1 hfrm1
      subst hdb'
      refine ⟨WFS_set db (t - 1).toNat tt _ _ _ htt hwfs, ⟨?_, ?_⟩, ?_, ?_, ?_, ?_⟩
      · dsimp only
        omega
      · intro i rr rec hrec
        dsimp only
        by_cases hi : i = (t - 1).toNat
        · subst hi
          rw [rowAtIdx_set_self db.tables _ _ _ tt _ htt rr] at hrec
          by_cases hrr : rr = r
          · subst hrr
            omega
          · rw [lookupA_insertA_ne tt.rows r rr _ hrr] at hrec
            have hrec' : rowAtIdx db (t - 1).toNat rr = some rec := by
              rw [rowAtIdx_by_table db (t - 1).toNat tt htt rr]
              exact hrec
            have := hbound (t - 1).toNat rr rec hrec'
            omega
        · rw [rowAtIdx_set_ne_db db (t - 1).toNat i _ _ _ hi rr] at hrec
          have := hbound i rr rec hrec
          omega
      · intro i j rr reci recj hi hj
        have hred : ∀ (i' : Nat) (reci' : DatabaseTableRow),
            rowAtIdx ⟨setTableRows db.tables (t - 1).toNat
              (insertA tt.rows r ⟨v + 1, vals⟩), db.next_row_key,
              add_to_foreign_reference_map frm1 (get_all_referenced_rows vals) r t⟩
              i' rr = some reci' → ∃ rec0, rowAtIdx db i' rr = some rec0 := by
          intro i' reci' hrec
          by_cases hii : i' = (t - 1).toNat
          · subst hii
            rw [rowAtIdx_set_self db.tables _ _ _ tt _ htt rr] at hrec
            by_cases hrr : rr = r
            · subst hrr
              exact ⟨target_row, hrowAt⟩
            · rw [lookupA_insertA_ne tt.rows r rr _ hrr] at hrec
              refine ⟨reci', ?_⟩
              rw [rowAtIdx_by_table db (t - 1).toNat tt htt rr]
              exact hrec
          · rw [rowAtIdx_set_ne_db db (t - 1).toNat i' _ _ _ hii rr] at hrec
            exact ⟨reci', hrec⟩
        obtain ⟨reci0, hi0⟩ := hred i reci hi
        obtain ⟨recj0, hj0⟩ := hred j recj hj
        exact huniq i j rr reci0 recj0 hi0 hj0
      · intro k E hE p hp
        rcases addFRM_new (get_all_referenced_rows vals) frm1 r t k E p hE hp with
          ⟨rfl, hkref⟩ | ⟨E₁, hE₁, hp₁⟩
        · dsimp only
          rw [setTableRows_length]
          exact ⟨by omega, by omega, by omega⟩
        · obtain ⟨E₀, hE₀, hp₀, _⟩ := (hRM k).2.1 E₁ hE₁ p hp₁
          have := hfpb k E₀ hE₀ p hp₀
          dsimp only
          rw [setTableRows_length]
          exact ⟨this.1, this.2.1, this.2.2⟩
      · intro i rr rec hrec k hk
        by_cases hi : i = (t - 1).toNat
        · subst hi
          rw [rowAtIdx_set_self db.tables _ _ _ tt _ htt rr] at hrec
          by_cases hrr : rr = r
          · subst rr
            rw [lookupA_insertA_self] at hrec
            injection hrec with he
            subst he
            obtain ⟨E, hE, hmem⟩ := addFRM_mem (get_all_referenced_rows vals)
              frm1 r t k hk
            refine ⟨E, hE, ?_⟩
            have hti : ((t - 1).toNat : Int) + 1 = t := by omega
            rw [hti]
            exact hmem
          · rw [lookupA_insertA_ne tt.rows r rr _ hrr] at hrec
            have hrec' : rowAtIdx db (t - 1).toNat rr = some rec := by
              rw [rowAtIdx_by_table db (t - 1).toNat tt htt rr]
              exact hrec
            obtain ⟨E₀, hE₀, hmem₀⟩ := hcomp (t - 1).toNat rr rec hrec' k hk
            have hne : (((t - 1).toNat : Int) + 1, rr) ≠ (t, r) := by
              intro heq
              rw [Prod.mk.injEq] at heq
              exact hrr heq.2
            obtain ⟨E₁, hE₁, hmem₁⟩ := (hRM k).2.2.1 E₀
              (((t - 1).toNat : Int) + 1, rr) hE₀ hmem₀ hne
            exact addFRM_preserve (get_all_referenced_rows vals) frm1 r t k E₁ _
              hE₁ hmem₁
        · rw [rowAtIdx_set_ne_db db (t - 1).toNat i _ _ _ hi rr] at hrec
          obtain ⟨E₀, hE₀, hmem₀⟩ := hcomp i rr rec hrec k hk
          have hne : (((i : Nat) : Int) + 1, rr) ≠ (t, r) := by
            intro heq
            rw [Prod.mk.injEq] at heq
            have : (i : Int) + 1 = t := heq.1
            omega
          obtain ⟨E₁, hE₁, hmem₁⟩ := (hRM k).2.2.1 E₀ ((i : Int) + 1, rr) hE₀ hmem₀ hne
          exact addFRM_preserve (get_all_referenced_rows vals) frm1 r t k E₁ _
            hE₁ hmem₁
      · intro k E hE p hp rec hrec
        rcases addFRM_new (get_all_referenced_rows vals) frm1 r t k E p hE hp with
          ⟨rfl, hkref⟩ | ⟨E₁, hE₁, hp₁⟩
        · rw [rowAtIdx_set_self db.tables _ _ _ tt _ htt _] at hrec
          rw [lookupA_insertA_self] at hrec
          injection hrec with he
          subst he
          exact hkref
        · obtain ⟨E₀, hE₀, hp₀, hcond⟩ := (hRM k).2.1 E₁ hE₁ p hp₁
          have hbnd := hfpb k E₀ hE₀ p hp₀
          by_cases hptr : p = (t, r)
          · subst hptr
            have hkold : k ∈ get_all_referenced_rows target_row.data := by
              refine hsnd k E₀ hE₀ (t, r) hp₀ target_row ?_
              rw [rowAtIdx_by_table db ((t : Int) - 1).toNat tt htt r]
              exact hrow
            exact absurd rfl (hcond hkold)
          · by_cases hpi : (p.1 - 1).toNat = (t - 1).toNat
            · have hp1t : p.1 = t := by omega
              by_cases hp2 : p.2 = r
              · exact absurd (Prod.ext hp1t hp2) hptr
              · rw [hpi, rowAtIdx_set_self db.tables _ _ _ tt _ htt p.2] at hrec
                rw [lookupA_insertA_ne tt.rows r p.2 _ hp2] at hrec
                have hrec' : rowAtIdx db (p.1 - 1).toNat p.2 = some rec := by
                  rw [hpi, rowAtIdx_by_table db (t - 1).toNat tt htt p.2]
                  exact hrec
                exact hsnd k E₀ hE₀ p hp₀ rec hrec'
            · rw [rowAtIdx_set_ne_db db (t - 1).toNat (p.1 - 1).toNat _ _ _ hpi p.2]
                at hrec
              exact hsnd k E₀ hE₀ p hp₀ rec hrec

theorem rowAtIdx_lt_length (db : Database) (i : Nat) (rr : Int)
    (rec : DatabaseTableRow) (h : rowAtIdx db i rr = some rec) :
    i < db.tables.length := by
  unfold rowAtIdx at h
  cases h' : db.tables[i]? with
  | none => rw [h'] at h; cases h
  | some tt =>
      by_contra hge
      have hnone : db.tables[i]? = none := List.getElem?_eq_none (by omega)
      rw [hnone] at h'
      cases h'

theorem Inv_drop (db : Database) (t r : Int) (res : Except ErrCode Resp)
    (db' : Database) (hinv : Inv db)
    (h : handle_drop db t r = some (res, db')) : Inv db' := by
  obtain ⟨hwfs, ⟨hnk1, hbound⟩, huniq, hfpb, hcomp, hsnd⟩ := hinv
  obtain ⟨⟨hsh, hq, hrg⟩, -, -, -⟩ :=
    drop_helper_fuel_post (measureD db + 1) db t r res db' h
  obtain ⟨hlen, hsch, hrows, hfrm, hnk, -⟩ := hsh
  refine ⟨?_, ⟨?_, ?_⟩, ?_, ?_, ?_, ?_⟩
  · intro i tt' htt' c hc hcf
    obtain ⟨tt0, htt0, hscheq⟩ := hsch i tt' htt'
    rw [hlen]
    refine hwfs i tt0 htt0 c ?_ hcf
    rw [hscheq] at hc
    exact hc
  · rw [hnk]
    exact hnk1
  · intro i rr rec hrec
    rw [hnk]
    exact hbound i rr rec (hrows i rr rec hrec)
  · intro i j rr reci recj hi hj
    exact huniq i j rr reci recj (hrows i rr reci hi) (hrows j rr recj hj)
  · intro k E hE p hp
    rw [hlen, hnk]
    exact hfpb k E (hfrm k E hE) p hp
  · intro i rr rec hrec k hk
    have hrec0 : rowAtIdx db i rr = some rec := hrows i rr rec hrec
    obtain ⟨E, hE, hmem⟩ := hcomp i rr rec hrec0 k hk
    cases hE' : lookupA db'.foreign_references_map k with
    | none =>
        have hlt : i < db.tables.length := rowAtIdx_lt_length db i rr rec hrec0
        have hval : validate_table_id db.tables ((i : Int) + 1) = true := by
          unfold validate_table_id
          rw [decide_eq_true_eq]
          omega
        have habs := hq k E hE hE' ((i : Int) + 1, rr) hmem hval
        rw [show (((i : Int) + 1 - 1)).toNat = i by omega] at habs
        rw [hrec] at habs
        cases habs
    | some E' =>
        have hsame := hfrm k E' hE'
        rw [hE] at hsame
        injection hsame with he
        subst he
        exact ⟨E, rfl, hmem⟩
  · intro k E hE p hp rec hrec
    exact hsnd k E (hfrm k E hE) p hp rec (hrows (p.1 - 1).toNat p.2 rec hrec)

theorem Inv_step (db db' : Database) (hinv : Inv db) (hstep : Step db db') :
    Inv db' := by
  cases hstep with
  | insert a b c d e => exact Inv_insert db a b c db' hinv e
  | update a b c d e f g => exact Inv_update db a b c d e db' hinv g
  | dropOp a b c d e => exact Inv_drop db a b c db' hinv e
  | getOp a b c d e =>
      rw [handle_get_state db a b c db' e]
      exact hinv
  | queryOp a b c d e f g =>
      rw [handle_query_state db a b c d e db' g]
      exact hinv

theorem reachable_inv (db : Database) (h : Reachable db) : Inv db := by
  induction h with
  | init ts hwf => exact Inv_init ts hwf
  | step db db' _ hstep ih => exact Inv_step db db' ih hstep

theorem step_nextkey (db db' : Database) (h : Step db db') :
    db.next_row_key ≤ db'.next_row_key := by
  cases h with
  | insert a b c d e =>
      cases c with
      | error ec =>
          rw [handle_insert_err_state db a b ec db' e]
      | ok resp =>
          obtain ⟨_, _, _, _, _, _, hdb'⟩ := handle_insert_ok_char db a b resp db' e
          rw [hdb']
          dsimp only
          omega
  | update a b c d e f g =>
      cases e with
      | error ec =>
          rw [handle_update_err_state db a b c d ec db' g]
      | ok resp =>
          obtain ⟨_, _, _, _, _, _, _, _, _, _, hdb'⟩ :=
            handle_update_ok_char db a b c d resp db' g
          rw [hdb']
  | dropOp a b c d e =>
      have hnk := (drop_helper_fuel_post (measureD db + 1) db a b c db' e).1.1.2.2.2.2.1
      rw [hnk]
  | getOp a b c d e =>
      rw [handle_get_state db a b c db' e]
  | queryOp a b c d e f g =>
      rw [handle_query_state db a b c d e db' g]

theorem stepstar_nextkey (db db' : Database) (h : StepStar db db') :
    db.next_row_key ≤ db'.next_row_key := by
  induction h with
  | refl => exact le_refl _
  | tail a b c d e => exact e.trans (step_nextkey a b d)

/-! ### Fuel adequacy of the completion model, and claim C8 -/

/-- The fuel `measureD db + 1` is adequate for the completion model: the
traversal itself drains — `handle_drop` never exhausts its fuel, every
completed call only shrinks the finite measure (rows plus reverse-reference
entries), and the result is the same under any fuel above the measure. This
proves the traversal-drains part of the spec's argument, but not termination
of the source `drop_helper`, which also blocks on the `MutexGuard` held across
its recursive calls (see `claim_C8_drop_deadlocks_on_cycle`). -/
theorem drop_fuel_adequate (db : Database) (t r : Int) :
    handle_drop db t r ≠ none ∧
    (∀ res db', handle_drop db t r = some (res, db') → measureD db' ≤ measureD db) ∧
    (∀ fuel : Nat, measureD db < fuel →
      drop_helper_fuel fuel db t r = handle_drop db t r) := by
  refine ⟨?_, ?_, ?_⟩
  · exact (drop_congr_main (measureD db + 1) db t r (measureD db + 1) (measureD db + 1)
      (Nat.lt_succ_self _) (Nat.lt_succ_self _) (Nat.lt_succ_self _)).2
  · intro res db' h
    exact drop_helper_fuel_measure_le (measureD db + 1) db t r res db' h
  · intro fuel hf
    exact (drop_congr_main (measureD db + 1) db t r fuel (measureD db + 1)
      (Nat.lt_succ_self _) hf (Nat.lt_succ_self _)).1

/-- **C8** (the claim fails on the code). On the cyclic state `exCyc` (table 1
row 1 holds `Foreign 2`, table 2 row 2 holds `Foreign 1`), `drop(1, 1)` exists
(`rowAtIdx exCyc 0 1 ≠ none` shows the row is present) and the traversal alone
would drain — the completion model returns `ok` — yet the faithful
lock-tracking model gets `stuck`: `drop_helper` still holds table 1's row-map
`MutexGuard` (src/database.rs line 230, alive until line 254) when the cascade
recurses through table 2's row 2 back to table 1 (line 248) and calls `lock()`
on a `std::sync::Mutex` already held by this thread, which never returns. So
drop does not terminate on every input: cyclic (or same-table) cascades
deadlock. -/
theorem claim_C8_drop_deadlocks_on_cycle :
    handle_drop_locked exCyc 1 1 = some DropOutcome.stuck ∧
    rowAtIdx exCyc 0 1 ≠ none ∧
    (handle_drop exCyc 1 1).map Prod.fst = some (Except.ok Resp.Drop) :=
  ⟨rfl, by decide, rfl⟩

/-! ### Characterizations of update and get -/

/-! ### Claims C1, C2, C3, C6 -/

/-- **C1** (the claim fails on the code, which contradicts its own comments and
dead code path): in `exDB2` table 1 is valid and row 1 exists, yet
`query(1, column_id = 0, EQ/NE, Integer 1)` returns `BAD_QUERY` instead of
succeeding with the row-id scan, because `validate_column_id` rejects
`column_id = 0` before the EQ/NE row-id code path (which tests the column
index only after the `- 1` conversion) can run. -/
theorem claim_C1_rowid_query_rejected :
    rowAt exDB2 1 1 ≠ none ∧
    validate_table_id exDB2.tables 1 = true ∧
    handle_query exDB2 1 0 OP_EQ (Value.Integer 1)
      = some (Except.error ErrCode.BAD_QUERY, exDB2) ∧
    handle_query exDB2 1 0 OP_NE (Value.Integer 1)
      = some (Except.error ErrCode.BAD_QUERY, exDB2) :=
  ⟨by decide, by decide, rfl, rfl⟩

/-- **C3.** Every successful `update(table_id, row_id, client_version, values)`
returns `new_version = client_version + 1` and stores exactly that version with
the new values; in particular a forced update (`client_version = 0`) stores
version 1 regardless of the version stored before the call. -/
theorem claim_C3_update_version_rule (db : Database) (t r v : Int) (vals : List Value)
    (resp : Resp) (db' : Database)
    (h : handle_update db t r v vals = some (Except.ok resp, db')) :
    resp = Resp.Update (v + 1) ∧
    rowAt db' t r = some ⟨v + 1, vals⟩ ∧
    (v = 0 → resp = Resp.Update 1 ∧ rowAt db' t r = some ⟨1, vals⟩) := by
  obtain ⟨tt, target_row, frm1, hval, htt, _, hrow, _, _, hresp, hdb'⟩ :=
    handle_update_ok_char db t r v vals resp db' h
  have hset := setTableRows_get_self db.tables (t - 1).toNat tt
    (insertA tt.rows r ⟨v + 1, vals⟩) htt
  have hrowAt : rowAt db' t r = some ⟨v + 1, vals⟩ := by
    rw [hdb']
    unfold rowAt
    rw [hset]
    exact lookupA_insertA_self tt.rows r ⟨v + 1, vals⟩
  refine ⟨hresp, hrowAt, fun hv0 => ?_⟩
  subst hv0
  rw [zero_add] at hresp hrowAt
  exact ⟨hresp, hrowAt⟩

/-- **C3 witness.** The concrete update `update(T1, 1, 1, [Integer 7])` from
`exDB2` succeeds with version 2 = 1 + 1 and stores it. -/
theorem claim_C3_witness :
    Resp.Update 2 = Resp.Update (1 + 1) ∧
    rowAt exDB3 1 1 = some ⟨1 + 1, [Value.Integer 7]⟩ ∧
    ((1 : Int) = 0 → Resp.Update 2 = Resp.Update 1 ∧
      rowAt exDB3 1 1 = some ⟨1, [Value.Integer 7]⟩) :=
  claim_C3_update_version_rule exDB2 1 1 1 [Value.Integer 7] (Resp.Update 2) exDB3 rfl

/-- **C2 (amended).** Two successive successful forced updates
(`client_version = 0`) with values `V`, followed by `get`, return `V` with
version 1 — not initial version + 2 — because each forced update stores
`client_version + 1 = 1`; both updates return version 1. -/
theorem claim_C2_double_force_update (db : Database) (t r : Int) (V : List Value)
    (resp1 resp2 : Resp) (db1 db2 : Database)
    (h1 : handle_update db t r 0 V = some (Except.ok resp1, db1))
    (h2 : handle_update db1 t r 0 V = some (Except.ok resp2, db2)) :
    resp1 = Resp.Update 1 ∧ resp2 = Resp.Update 1 ∧
    handle_get db2 t r = some (Except.ok (Resp.Get 1 V), db2) := by
  obtain ⟨_, _, _, _, _, _, _, _, _, hresp1, _⟩ :=
    handle_update_ok_char db t r 0 V resp1 db1 h1
  obtain ⟨tt', target_row', frm1', hval', htt', _, hrow', _, _, hresp2, hdb2⟩ :=
    handle_update_ok_char db1 t r 0 V resp2 db2 h2
  rw [zero_add] at hresp1 hresp2
  have hset := setTableRows_get_self db1.tables (t - 1).toNat tt'
    (insertA tt'.rows r ⟨0 + 1, V⟩) htt'
  have htt2 : db2.tables[(t - 1).toNat]?
      = some ⟨tt'.table_schema, insertA tt'.rows r ⟨0 + 1, V⟩⟩ := by
    rw [hdb2]; exact hset
  have hval2 : validate_table_id db2.tables t = true := by
    rw [hdb2]
    dsimp only
    rw [validate_table_id_setTableRows]
    exact hval'
  have hlook : lookupA (insertA tt'.rows r ⟨0 + 1, V⟩) r = some ⟨0 + 1, V⟩ :=
    lookupA_insertA_self tt'.rows r ⟨0 + 1, V⟩
  have hget := handle_get_found db2 t r ⟨tt'.table_schema, insertA tt'.rows r ⟨0 + 1, V⟩⟩
    ⟨0 + 1, V⟩ hval2 htt2 hlook
  rw [zero_add] at hget
  exact ⟨hresp1, hresp2, hget⟩

/-- **C2 witness.** From `exDB2`, two forced updates of row 1 of table 1 with
`[Integer 9]` succeed and the following get returns the values with version 1. -/
theorem claim_C2_witness :
    Resp.Update 1 = Resp.Update 1 ∧ Resp.Update 1 = Resp.Update 1 ∧
    handle_get exDB6 1 1 = some (Except.ok (Resp.Get 1 [Value.Integer 9]), exDB6) :=
  claim_C2_double_force_update exDB2 1 1 [Value.Integer 9]
    (Resp.Update 1) (Resp.Update 1) exDB5 exDB6 rfl rfl

/-- **C2 counterexample.** In `exDB3`, row 1 of table 1 is stored at version 2;
the forced update returns `ok(Update 1)` and not `ok(Update 3)` as the claim
("a forced update on a row at stored version 2 returns new version 3")
requires; a fortiori two forced updates do not end at initial version + 2. -/
theorem claim_C2_counterexample :
    (rowAt exDB3 1 1).map DatabaseTableRow.version = some 2 ∧
    (handle_update exDB3 1 1 0 [Value.Integer 9]).map Prod.fst
      = some (Except.ok (Resp.Update 1)) ∧
    Resp.Update 1 ≠ Resp.Update 3 :=
  ⟨rfl, rfl, by decide⟩

/-- **C6.** `update` returns `TXN_ABORT` iff the table id is valid, the values
conform to the schema, the row exists, `client_version ≠ 0` and
`client_version` differs from the stored version; and on `TXN_ABORT` as on
`NOT_FOUND` the whole state (row values, version, reverse-reference index) is
returned unchanged. -/
theorem claim_C6_txn_abort_iff (db : Database) (t r v : Int) (vals : List Value)
    (res : Except ErrCode Resp) (db' : Database)
    (h : handle_update db t r v vals = some (res, db')) :
    (res = Except.error ErrCode.TXN_ABORT ↔
      (validate_table_id db.tables t = true ∧
       ∃ tt, db.tables[(t - 1).toNat]? = some tt ∧
         (∃ b, validate_values_against_schema vals tt.table_schema.t_cols db
            = some (Except.ok b)) ∧
         ∃ rec, lookupA tt.rows r = some rec ∧ v ≠ 0 ∧ rec.version ≠ v)) ∧
    ((res = Except.error ErrCode.TXN_ABORT ∨ res = Except.error ErrCode.NOT_FOUND) →
      db' = db) := by
  unfold handle_update at h
  split at h
  next hval =>
    simp only [Option.some.injEq, Prod.mk.injEq] at h
    obtain ⟨h1, h2⟩ := h
    subst h2
    constructor
    · constructor
      · intro habs; rw [← h1] at habs; simp at habs
      · rintro ⟨hvt, -⟩; rw [hval] at hvt; cases hvt
    · intro; rfl
  next hval =>
    split at h
    · simp at h
    next tt htt =>
      split at h
      · simp at h
      next e herr =>
        simp only [Option.some.injEq, Prod.mk.injEq] at h
        obtain ⟨h1, h2⟩ := h
        subst h2
        have hecases := validate_values_error_cases db vals tt.table_schema.t_cols e herr
        constructor
        · constructor
          · intro habs
            rw [← h1] at habs
            have : e = ErrCode.TXN_ABORT := by
              injection habs with hx
            rcases hecases with he | he | he <;> rw [he] at this <;> cases this
          · rintro ⟨-, tt', htt', ⟨b, hb⟩, -⟩
            rw [htt] at htt'
            injection htt' with he
            subst he
            rw [herr] at hb
            simp at hb
        · intro; rfl
      next b hok =>
        split at h
        next hnone =>
          simp only [Option.some.injEq, Prod.mk.injEq] at h
          obtain ⟨h1, h2⟩ := h
          subst h2
          constructor
          · constructor
            · intro habs; rw [← h1] at habs; simp at habs
            · rintro ⟨-, tt', htt', -, rec, hrec, -⟩
              rw [htt] at htt'
              injection htt' with he
              subst he
              rw [hnone] at hrec
              cases hrec
          · intro; rfl
        next target_row hrow =>
          split at h
          next hver =>
            simp only [Option.some.injEq, Prod.mk.injEq] at h
            obtain ⟨h1, h2⟩ := h
            subst h2
            constructor
            · constructor
              · intro
                refine ⟨by simpa using hval, tt, htt, ⟨b, hok⟩, target_row, hrow,
                  hver.2, hver.1⟩
              · intro; exact h1.symm
            · intro; rfl
          next hver =>
            dsimp only at h
            split at h
            · simp at h
            next frm1 hfrm =>
              simp only [Option.some.injEq, Prod.mk.injEq] at h
              obtain ⟨h1, h2⟩ := h
              constructor
              · constructor
                · intro habs; rw [← h1] at habs; simp at habs
                · rintro ⟨-, tt', htt', -, rec, hrec, hv0, hvne⟩
                  rw [htt] at htt'
                  injection htt' with he
                  subst he
                  rw [hrow] at hrec
                  injection hrec with he2
                  subst he2
                  exact absurd ⟨hvne, hv0⟩ hver
              · intro habs
                rcases habs with habs | habs <;> rw [← h1] at habs <;> simp at habs

/-- **C6 witness.** The concrete update `update(T1, 1, client_version = 1,
[Integer 8])` on `exDB3` (stored version 2) returns `TXN_ABORT` and leaves the
state unchanged. -/
theorem claim_C6_witness :
    ((Except.error ErrCode.TXN_ABORT : Except ErrCode Resp)
        = Except.error ErrCode.TXN_ABORT ↔
      (validate_table_id exDB3.tables 1 = true ∧
       ∃ tt, exDB3.tables[((1 : Int) - 1).toNat]? = some tt ∧
         (∃ b, validate_values_against_schema [Value.Integer 8]
            tt.table_schema.t_cols exDB3 = some (Except.ok b)) ∧
         ∃ rec, lookupA tt.rows 1 = some rec ∧ (1 : Int) ≠ 0 ∧ rec.version ≠ 1)) ∧
    (((Except.error ErrCode.TXN_ABORT : Except ErrCode Resp)
        = Except.error ErrCode.TXN_ABORT ∨
      (Except.error ErrCode.TXN_ABORT : Except ErrCode Resp)
        = Except.error ErrCode.NOT_FOUND) → exDB3 = exDB3) :=
  claim_C6_txn_abort_iff exDB3 1 1 1 [Value.Integer 8]
    (Except.error ErrCode.TXN_ABORT) exDB3 rfl

/-! ### Claims C4, C7, C10, C5 -/

theorem reachable_exDB2 : Reachable exDB2 := by
  have h0 : Reachable exDB0 := Reachable.init [exT1, exT2] (by unfold WFSchemas; decide)
  have h1 : Reachable exDB1 := Reachable.step exDB0 exDB1 h0
    (Step.insert exDB0 1 [Value.Integer 42] (Except.ok (Resp.Insert 1 1)) exDB1 rfl)
  exact Reachable.step exDB1 exDB2 h1
    (Step.insert exDB1 2 [Value.Foreign 1] (Except.ok (Resp.Insert 2 1)) exDB2 rfl)

/-- **C4 (amended).** In every reachable state the reverse-reference index is
complete — every non-zero foreign target stored in a live row has that row
registered under the target's key — and sound on live rows — a registered
pair whose row still exists really stores the key as a non-zero foreign
target. (Full exactness fails: after a drop, stale pairs naming rows that no
longer exist may remain, see the counterexample.) -/
theorem claim_C4_reverse_index (db : Database) (h : Reachable db) :
    Complete db ∧ SoundEx db :=
  ⟨(reachable_inv db h).2.2.2.2.1, (reachable_inv db h).2.2.2.2.2⟩

/-- **C4 witness.** In the reachable state `exDB2`, the row `(2, 2)` holding
`Foreign 1` is registered under key 1. -/
theorem claim_C4_witness :
    (lookupA exDB2.foreign_references_map 1).isSome = true := by
  obtain ⟨E, hE, -⟩ := (claim_C4_reverse_index exDB2 reachable_exDB2).1 1 2
    ⟨1, [Value.Foreign 1]⟩ rfl 1 (by decide)
  rw [hE]
  rfl

/-- **C4 counterexample.** The committed sequence insert, insert, drop leaves
the stale entry `(2, 2)` under key 1 while row `(2, 2)` no longer exists, so
the index is not an exact denormalization: it names a row that no longer
exists. -/
theorem claim_C4_counterexample :
    (handle_insert exDB0 1 [Value.Integer 42]).map Prod.fst
      = some (Except.ok (Resp.Insert 1 1)) ∧
    (handle_insert exDB1 2 [Value.Foreign 1]).map Prod.fst
      = some (Except.ok (Resp.Insert 2 1)) ∧
    handle_drop exDB2 2 2 = some (Except.ok Resp.Drop, exDB4) ∧
    lookupA exDB4.foreign_references_map 1 = some [(2, 2)] ∧
    rowAtIdx exDB4 1 2 = none :=
  ⟨rfl, rfl, rfl, rfl, rfl⟩

/-- **C7.** Row-id allocation: the allocator starts at 1; in every reachable
state all stored row ids are at least 1 (id 0 is never assigned), below the
allocator, and unique across all tables; every successful insert returns the
current allocator value and bumps it; the allocator never decreases across
committed operations; and row ids returned by successful inserts are strictly
increasing across the whole database (so ids are never reused, even after
drops). -/
theorem claim_C7_row_id_allocation (db : Database) (h : Reachable db) :
    (∀ ts : List TableMetadata, (Database.new ts).next_row_key = 1) ∧
    1 ≤ db.next_row_key ∧
    (∀ i r rec, rowAtIdx db i r = some rec → 1 ≤ r ∧ r < db.next_row_key) ∧
    (∀ i j r reci recj, rowAtIdx db i r = some reci →
      rowAtIdx db j r = some recj → i = j) ∧
    (∀ t vals i v db1,
      handle_insert db t vals = some (Except.ok (Resp.Insert i v), db1) →
      i = db.next_row_key ∧ 1 ≤ i ∧ db1.next_row_key = db.next_row_key + 1) ∧
    (∀ db2, StepStar db db2 → db.next_row_key ≤ db2.next_row_key) ∧
    (∀ t vals i v db1 db2 t' vals' i' v' db3,
      handle_insert db t vals = some (Except.ok (Resp.Insert i v), db1) →
      StepStar db1 db2 →
      handle_insert db2 t' vals' = some (Except.ok (Resp.Insert i' v'), db3) →
      i < i') := by
  obtain ⟨_, ⟨hnk1, hbound⟩, huniq, _, _, _⟩ := reachable_inv db h
  refine ⟨fun ts => rfl, hnk1, hbound, huniq, ?_,
    fun db2 hs => stepstar_nextkey db db2 hs, ?_⟩
  · intro t vals i v db1 hins
    obtain ⟨tt, b, _, _, _, hresp, hdb1⟩ :=
      handle_insert_ok_char db t vals (Resp.Insert i v) db1 hins
    injection hresp with hi hv
    subst hdb1
    exact ⟨hi, by omega, rfl⟩
  · intro t vals i v db1 db2 t' vals' i' v' db3 h1 hs h2
    obtain ⟨_, _, _, _, _, hresp1, hdb1⟩ :=
      handle_insert_ok_char db t vals (Resp.Insert i v) db1 h1
    injection hresp1 with hi1 hv1
    obtain ⟨_, _, _, _, _, hresp2, -⟩ :=
      handle_insert_ok_char db2 t' vals' (Resp.Insert i' v') db3 h2
    injection hresp2 with hi2 hv2
    have hmono : db1.next_row_key ≤ db2.next_row_key := stepstar_nextkey db1 db2 hs
    rw [hdb1] at hmono
    dsimp only at hmono
    omega

/-- **C7 witness.** In the reachable state `exDB2` the allocator is positive
and row id 1 (stored in table index 0) is at least 1 and below the allocator. -/
theorem claim_C7_witness :
    1 ≤ exDB2.next_row_key ∧ (1 ≤ (1 : Int) ∧ (1 : Int) < exDB2.next_row_key) :=
  ⟨(claim_C7_row_id_allocation exDB2 reachable_exDB2).2.1,
   (claim_C7_row_id_allocation exDB2 reachable_exDB2).2.2.1 0 1
     ⟨1, [Value.Integer 42]⟩ rfl⟩

theorem validate_values_go_not_none (db : Database) :
    ∀ (vals : List Value) (cols : List ColumnMetadata),
      (∀ c ∈ cols, c.c_type = CType.FOREIGN →
        1 ≤ c.c_ref ∧ ∃ rt, db.tables[(c.c_ref - 1).toNat]? = some rt) →
      validate_values_go db vals cols ≠ none := by
  intro vals
  induction vals with
  | nil => intro cols _ hn; simp [validate_values_go] at hn
  | cons v vs ih =>
      intro cols hcols hn
      cases cols with
      | nil => simp [validate_values_go] at hn
      | cons c cs =>
          have hcs : ∀ c' ∈ cs, c'.c_type = CType.FOREIGN →
              1 ≤ c'.c_ref ∧ ∃ rt, db.tables[(c'.c_ref - 1).toNat]? = some rt :=
            fun c' hc' => hcols c' (List.mem_cons_of_mem c hc')
          cases v <;> simp only [validate_values_go] at hn
          case Null =>
            split at hn
            · cases hn
            · exact ih cs hcs hn
          case Integer =>
            split at hn
            · cases hn
            · exact ih cs hcs hn
          case Float =>
            split at hn
            · cases hn
            · exact ih cs hcs hn
          case Text =>
            split at hn
            · cases hn
            · exact ih cs hcs hn
          case Foreign =>
            split at hn
            next hne => cases hn
            next hne =>
              split at hn
              · split at hn
                next hneg =>
                    have hf : c.c_type = CType.FOREIGN := not_not.mp hne
                    obtain ⟨h1, -⟩ := hcols c (List.mem_cons_self c cs) hf
                    omega
                next hneg =>
                    split at hn
                    next hnone_tab =>
                        have hf : c.c_type = CType.FOREIGN := not_not.mp hne
                        obtain ⟨-, rt, hrt⟩ := hcols c (List.mem_cons_self c cs) hf
                        rw [hrt] at hnone_tab
                        cases hnone_tab
                    next rt hrt =>
                        split at hn
                        · cases hn
                        · exact ih cs hcs hn
              · exact ih cs hcs hn

theorem validate_values_not_none (db : Database) (tt : DatabaseTable) (i : Nat)
    (htt : db.tables[i]? = some tt) (hwfs : WFS db) (vals : List Value) :
    validate_values_against_schema vals tt.table_schema.t_cols db ≠ none := by
  unfold validate_values_against_schema
  split
  · exact fun hn => Option.noConfusion hn
  · refine validate_values_go_not_none db vals tt.table_schema.t_cols ?_
    intro c hc hcf
    obtain ⟨h1, h2⟩ := hwfs i tt htt c hc hcf
    have hlt : (c.c_ref - 1).toNat < db.tables.length := by omega
    exact ⟨h1, db.tables[(c.c_ref - 1).toNat], List.getElem?_eq_getElem hlt⟩

/-- **C10.** In every reachable state every non-zero foreign target stored in
a live row has a reverse-reference entry containing that row, so the `unwrap`
inside `remove_from_foreign_reference_map` — reached by `handle_update` when
clearing the old values' references — never panics: `handle_update` never
returns the panic marker `none`. -/
theorem claim_C10_update_no_panic (db : Database) (h : Reachable db)
    (t r v : Int) (vals : List Value) :
    handle_update db t r v vals ≠ none := by
  obtain ⟨hwfs, _, _, _, hcomp, _⟩ := reachable_inv db h
  intro hnone
  unfold handle_update at hnone
  split at hnone
  · exact Option.noConfusion hnone
  next hval =>
    split at hnone
    next htt_none =>
      have hvt : validate_table_id db.tables t = true := by
        revert hval
        cases validate_table_id db.tables t <;> simp
      obtain ⟨tt, htt⟩ := validate_table_id_get db.tables t hvt
      rw [htt] at htt_none
      cases htt_none
    next tt htt =>
      split at hnone
      next hvv_none =>
        exact validate_values_not_none db tt (t - 1).toNat htt hwfs vals hvv_none
      · exact Option.noConfusion hnone
      next b hvv =>
        split at hnone
        · exact Option.noConfusion hnone
        next target_row hrow =>
          split at hnone
          · exact Option.noConfusion hnone
          next hver =>
            dsimp only at hnone
            split at hnone
            next hrm_none =>
              have hall : ∀ k ∈ get_all_referenced_rows target_row.data,
                  ∃ E, lookupA db.foreign_references_map k = some E := by
                intro k hk
                have hrowAt : rowAtIdx db (t - 1).toNat r = some target_row := by
                  rw [rowAtIdx_by_table db (t - 1).toNat tt htt r]
                  exact hrow
                obtain ⟨E, hE, -⟩ := hcomp (t - 1).toNat r target_row hrowAt k hk
                exact ⟨E, hE⟩
              obtain ⟨m', hm'⟩ := removeFRM_some (get_all_referenced_rows
                target_row.data) db.foreign_references_map r t hall
              rw [hm'] at hrm_none
              cases hrm_none
            · exact Option.noConfusion hnone

/-- **C10 witness.** A concrete forced update in the reachable state `exDB2`
does not panic. -/
theorem claim_C10_witness :
    (handle_update exDB2 1 1 0 [Value.Integer 5]).isSome = true := by
  cases hu : handle_update exDB2 1 1 0 [Value.Integer 5] with
  | none =>
      exact absurd hu
        (claim_C10_update_no_panic exDB2 reachable_exDB2 1 1 0 [Value.Integer 5])
  | some x => rfl

theorem TransRef_present (db : Database) (target m : Int)
    (h : TransRef db target m) : ∃ i rec, rowAtIdx db i m = some rec := by
  cases h with
  | direct a b c d e => exact ⟨b, c, d⟩
  | trans a b c d e f g => exact ⟨c, d, e⟩

/-- **C5.** For every successful `drop(t, r)` from a reachable state, row `r`
and every row that transitively holds a non-zero foreign reference to `r`
(reachability over the stored forward-reference graph) are removed from all
tables, and a subsequent `get` on `r` or on any such cascaded row returns
`NOT_FOUND`. -/
theorem claim_C5_cascading_drop (db : Database) (t r : Int) (db' : Database)
    (hreach : Reachable db)
    (h : handle_drop db t r = some (Except.ok Resp.Drop, db')) :
    (∀ i, rowAtIdx db' i r = none) ∧
    (∀ m, TransRef db r m → ∀ i, rowAtIdx db' i m = none) ∧
    (∀ t', validate_table_id db'.tables t' = true →
      handle_get db' t' r = some (Except.error ErrCode.NOT_FOUND, db')) ∧
    (∀ m, TransRef db r m → ∀ t', validate_table_id db'.tables t' = true →
      handle_get db' t' m = some (Except.error ErrCode.NOT_FOUND, db')) := by
  obtain ⟨_, ⟨_, hbound⟩, huniq, _, hcomp, _⟩ := reachable_inv db hreach
  obtain ⟨⟨hsh, hq, hrg⟩, hbseed, hok, -⟩ :=
    drop_helper_fuel_post (measureD db + 1) db t r (Except.ok Resp.Drop) db' h
  obtain ⟨hpres_seed, habs_seed⟩ := hok rfl
  have habsAll : ∀ (m : Int) (im : Nat), rowAtIdx db im m ≠ none →
      rowAtIdx db' im m = none → ∀ i, rowAtIdx db' i m = none := by
    intro m im hpres habs i
    cases hx : rowAtIdx db' i m with
    | none => rfl
    | some rec =>
        have hdbx := hsh.2.2.1 i m rec hx
        cases hy : rowAtIdx db im m with
        | none => exact absurd hy hpres
        | some rec2 =>
            have hij := huniq i im m rec rec2 hdbx hy
            subst hij
            rw [habs] at hx
            cases hx
  have hseedAll : ∀ i, rowAtIdx db' i r = none :=
    habsAll r (t - 1).toNat hpres_seed habs_seed
  have hkilled : ∀ (m : Int) (i0 : Nat) (rec0 : DatabaseTableRow) (k : Int),
      rowAtIdx db i0 m = some rec0 → k ∈ get_all_referenced_rows rec0.data →
      lookupA db'.foreign_references_map k = none → ∀ i, rowAtIdx db' i m = none := by
    intro m i0 rec0 k h1 h2 hkgone
    obtain ⟨E, hE, hmem⟩ := hcomp i0 m rec0 h1 k h2
    have hlt : i0 < db.tables.length := rowAtIdx_lt_length db i0 m rec0 h1
    have hval : validate_table_id db.tables ((i0 : Int) + 1) = true := by
      unfold validate_table_id
      rw [decide_eq_true_eq]
      omega
    have habs0 := hq k E hE hkgone ((i0 : Int) + 1, m) hmem hval
    rw [show (((i0 : Int) + 1 - 1)).toNat = i0 by omega] at habs0
    refine habsAll m i0 ?_ habs0
    rw [h1]
    exact fun hc => Option.noConfusion hc
  have main : ∀ m, TransRef db r m → ∀ i, rowAtIdx db' i m = none := by
    intro m htr
    induction htr with
    | direct a i0 rec0 h1 h2 =>
        have hfrm_r : lookupA db'.foreign_references_map r = none :=
          hrg (t - 1).toNat r hpres_seed habs_seed
        exact hkilled a i0 rec0 r h1 h2 hfrm_r
    | trans a j i0 rec0 h1 h2 h3 ih =>
        obtain ⟨ij, recj, hj⟩ := TransRef_present db r j h3
        have hjne : rowAtIdx db ij j ≠ none := by
          rw [hj]
          exact fun hc => Option.noConfusion hc
        have hfrm_j : lookupA db'.foreign_references_map j = none :=
          hrg ij j hjne (ih ij)
        exact hkilled a i0 rec0 j h1 h2 hfrm_j
  refine ⟨hseedAll, main, ?_, ?_⟩
  · intro t' hvt'
    obtain ⟨tt', htt'⟩ := validate_table_id_get db'.tables t' hvt'
    refine handle_get_missing db' t' r tt' hvt' htt' ?_
    have := hseedAll (t' - 1).toNat
    rw [rowAtIdx_by_table db' (t' - 1).toNat tt' htt' r] at this
    exact this
  · intro m htr t' hvt'
    obtain ⟨tt', htt'⟩ := validate_table_id_get db'.tables t' hvt'
    refine handle_get_missing db' t' m tt' hvt' htt' ?_
    have := main m htr (t' - 1).toNat
    rw [rowAtIdx_by_table db' (t' - 1).toNat tt' htt' m] at this
    exact this

/-- **C5 witness.** Dropping row 1 of table 1 from the reachable state
`exDB2` cascades to row 2 of table 2 (which holds `Foreign 1`): both rows are
gone and `get` on the cascaded row returns `NOT_FOUND`. -/
theorem claim_C5_witness :
    rowAtIdx exDB7 0 1 = none ∧ rowAtIdx exDB7 1 2 = none ∧
    handle_get exDB7 2 2 = some (Except.error ErrCode.NOT_FOUND, exDB7) := by
  have hc := claim_C5_cascading_drop exDB2 1 1 exDB7 reachable_exDB2 rfl
  have htr : TransRef exDB2 1 2 := TransRef.direct 2 1 ⟨1, [Value.Foreign 1]⟩ rfl (by decide)
  exact ⟨hc.1 0, hc.2.1 2 htr 1, hc.2.2.2 2 htr 2 (by decide)⟩

end EasyDB
